import Mathlib

/-!
# Verification of the quad-edge Delaunay triangulation core

A shallow embedding of the `parallel-delaunay` repository's triangulation
core: the geometric predicates (`linear_algebra.py`), the quad-edge arena
(`edge_topology.py`), the splitter (`points_tools/split_list.py`), the
primitive builders (`triangulation_primitives.py`) and the divide-and-conquer
merge engine (`triangulation.py`).  Python lists become Lean `List`s, edge
references become natural-number indices into the arena, point coordinates
become exact integers (the predicates are polynomial sign tests), the
unbounded `while` loops become fuel-indexed recursions returning `Option`,
and code paths that raise become `Except.error`.
-/

set_option autoImplicit false

namespace ParallelDelaunay

/-- A 2D point; the Python code stores points as two-element lists `[x, y]`. -/
structure Point where
  x : Int
  y : Int
  deriving DecidableEq, Repr, Inhabited

/-- `linear_algebra.list_equal`: component-wise equality of two points. -/
def list_equal (p q : Point) : Bool :=
  (p.x == q.x) && (p.y == q.y)

/-- `linear_algebra.ccw_angle`: the signed-area cross product of p1, p2, p3. -/
def ccw_angle (p1 p2 p3 : Point) : Int :=
  (p1.x - p3.x) * (p2.y - p3.y) - (p1.y - p3.y) * (p2.x - p3.x)

/-- `linear_algebra.on_right`: p3 is strictly to the right of the line p1→p2. -/
def on_right (p1 p2 p3 : Point) : Bool :=
  ccw_angle p1 p2 p3 > 0

/-- `linear_algebra.on_left`: p3 is strictly to the left of the line p1→p2. -/
def on_left (p1 p2 p3 : Point) : Bool :=
  ccw_angle p1 p2 p3 < 0

/-- `linear_algebra.in_circle`: `d` lies strictly inside the circle through
`a`, `b`, `c`, by the sign of the lifted 4×4 determinant expanded after
translating by `d`. -/
def in_circle (a b c d : Point) : Bool :=
  let c1 := a.x - d.x
  let c2 := b.x - d.x
  let c3 := c.x - d.x
  let u1 := a.y - d.y
  let u2 := b.y - d.y
  let u3 := c.y - d.y
  let v1 := c1 ^ 2 + u1 ^ 2
  let v2 := c2 ^ 2 + u2 ^ 2
  let v3 := c3 ^ 2 + u3 ^ 2
  let det := (c1 * ((u2 * v3) - (v2 * u3)))
           - (c2 * ((u1 * v3) - (v1 * u3)))
           + (c3 * ((u1 * v2) - (v1 * u2)))
  det < 0

/-- `edge_topology.Edge`: one half-edge record of the quad-edge structure.
All references (`sym`, `onext`, `oprev`) are indices into the edge arena;
`org` and `dest` are indices into the owning subdivision's point list. -/
@[ext]
structure Edge where
  index : Nat
  org : Nat
  dest : Nat
  sym : Nat
  onext : Nat
  oprev : Nat
  deactivate : Bool
  deriving DecidableEq, Repr

instance : Inhabited Edge := ⟨⟨0, 0, 0, 0, 0, 0, false⟩⟩

/-- `Edge.shift_indices`: shift the edge indices by `shift_edges` and the
point indices by `shift_points` (used when merging arenas). -/
def Edge.shift_indices (e : Edge) (shift_edges shift_points : Nat) : Edge :=
  { e with
    index := e.index + shift_edges
    org := e.org + shift_points
    dest := e.dest + shift_points
    sym := e.sym + shift_edges
    onext := e.onext + shift_edges
    oprev := e.oprev + shift_edges }

/-- `edge_topology.setup_edge`: create a fresh half-edge pair `(k, k+1)` from
`origin` to `dest`, each a self-loop in its `onext`/`oprev` ring. -/
def setup_edge (origin dest edge_idx : Nat) : Edge × Edge :=
  (⟨edge_idx, origin, dest, edge_idx + 1, edge_idx, edge_idx, false⟩,
   ⟨edge_idx + 1, dest, origin, edge_idx, edge_idx + 1, edge_idx + 1, false⟩)

/-- Arena read: `self.edges[i]` (all indices arising in valid runs are in
range; out-of-range reads return the default record). -/
def geti (es : List Edge) (i : Nat) : Edge :=
  es.getD i default

/-- The field assignment `self.edges[j].oprev = w`. -/
def setOprev (es : List Edge) (j w : Nat) : List Edge :=
  es.set j { geti es j with oprev := w }

/-- The field assignment `self.edges[j].onext = w`. -/
def setOnext (es : List Edge) (j w : Nat) : List Edge :=
  es.set j { geti es j with onext := w }

/-- The field assignment `self.edges[j].deactivate = True`. -/
def setDeactivate (es : List Edge) (j : Nat) : List Edge :=
  es.set j { geti es j with deactivate := true }

/-- The list-level body of `Edges.splice`, mirroring the Python statement by
statement: repair the two `oprev` fields named by the current `onext`
pointers of `edge1` and `edge2`, then swap the `onext` fields. -/
def spliceL (es : List Edge) (edge1 edge2 : Nat) : List Edge :=
  let es1 := setOprev es (geti es edge1).onext edge2
  let es2 := setOprev es1 (geti es1 edge2).onext edge1
  let onext_2 := (geti es2 edge2).onext
  let onext_1 := (geti es2 edge1).onext
  let es3 := setOnext es2 edge1 onext_2
  let es4 := setOnext es3 edge2 onext_1
  es4

/-- `edge_topology.TriangulationEdges`: the subdivision, owning the edge
arena, the edge counter, the two extreme-edge indices and the point list. -/
@[ext]
structure TriangulationEdges where
  edges : List Edge
  num_edges : Nat
  inner : Nat
  outer : Nat
  points : List Point
  deriving Repr

instance : Inhabited TriangulationEdges :=
  ⟨⟨[], 0, 0, 0, []⟩⟩

namespace TriangulationEdges

/-- Point-list read: `self.points[i]`. -/
def pt (t : TriangulationEdges) (i : Nat) : Point :=
  t.points.getD i default

/-- `Edges.push_back`: append a half-edge and bump the edge counter. -/
def push_back (t : TriangulationEdges) (new_edge : Edge) : TriangulationEdges :=
  { t with edges := t.edges ++ [new_edge], num_edges := t.num_edges + 1 }

/-- `Edges.set_extreme_edges`: record the two boundary edge indices. -/
def set_extreme_edges (t : TriangulationEdges) (left_most_edge right_most_edge : Nat) :
    TriangulationEdges :=
  { t with inner := left_most_edge, outer := right_most_edge }

/-- `Edges.splice`: the Guibas–Stolfi ring-merging/splitting primitive. -/
def splice (t : TriangulationEdges) (edge1 edge2 : Nat) : TriangulationEdges :=
  { t with edges := spliceL t.edges edge1 edge2 }

/-- `Edges.connect`: allocate a fresh pair from `dest(edge1)` to `org(edge2)`
at the current edge count and splice it into both rings; returns the updated
subdivision and the new edge's index. -/
def connect (t : TriangulationEdges) (edge1 edge2 : Nat) : TriangulationEdges × Nat :=
  let current_index := t.num_edges
  let pair := setup_edge (geti t.edges edge1).dest (geti t.edges edge2).org current_index
  let t1 := (t.push_back pair.1).push_back pair.2
  let edge1_sym_oprev := (geti t1.edges (geti t1.edges edge1).sym).oprev
  let t2 := t1.splice pair.1.index edge1_sym_oprev
  let t3 := t2.splice (geti t2.edges pair.1.index).sym edge2
  (t3, pair.1.index)

/-- `Edges.kill_edge`: splice edge `e` and its sym out of their rings, then
mark both half-edges deactivated. -/
def kill_edge (t : TriangulationEdges) (e : Nat) : TriangulationEdges :=
  let t1 := t.splice e (geti t.edges e).oprev
  let t2 := t1.splice (geti t1.edges e).sym (geti t1.edges (geti t1.edges e).sym).oprev
  let es := setDeactivate t2.edges e
  let es := setDeactivate es (geti es e).sym
  { t2 with edges := es }

/-- `Edges.filter_deactivated`: drop the deactivated records from the arena
(the edge counter is left untouched). -/
def filter_deactivated (t : TriangulationEdges) : TriangulationEdges :=
  { t with edges := t.edges.filter (fun e => e.deactivate == false) }

/-- `TriangulationEdges.shift_indices`: shift every edge record. -/
def shift_indices (t : TriangulationEdges) (shift_edges shift_points : Nat) :
    TriangulationEdges :=
  { t with edges := t.edges.map (fun e => e.shift_indices shift_edges shift_points) }

/-- `TriangulationEdges.merge_hulls`: renumber the second hull's edges past
this hull's edge count and point count, then concatenate the arenas. -/
def merge_hulls (t : TriangulationEdges) (second_hull : TriangulationEdges) :
    TriangulationEdges :=
  let len1 := t.num_edges
  let len2 := second_hull.num_edges
  let shifted := second_hull.shift_indices len1 t.points.length
  { t with edges := t.edges ++ shifted.edges, num_edges := len1 + len2 }

/-- `TriangulationEdges.combine_triangulations`: merge the arenas and
concatenate the point lists. -/
def combine_triangulations (t : TriangulationEdges) (triangulation : TriangulationEdges) :
    TriangulationEdges :=
  let m := t.merge_hulls triangulation
  { m with points := m.points ++ triangulation.points }

end TriangulationEdges

/-! ## The splitter (`points_tools/split_list.py`) -/

/-- Python's `range(start, stop, step)` for a positive step, as the
arithmetic progression of `⌈(stop − start) / step⌉` terms. -/
def pyRange (start stop step : Nat) : List Nat :=
  List.range' start ((stop - start + step - 1) / step) step

/-- Python's slice `xs[i:j]` (for `0 ≤ i ≤ j`). -/
def pySlice {α : Type} (xs : List α) (i j : Nat) : List α :=
  (xs.drop i).take (j - i)

/-- `split_list.groups_of_3`: split a point list into chunks of three; a
remainder of two becomes a leading pair, a remainder of one makes the first
four elements two leading pairs. -/
def groups_of_3 {α : Type} [Inhabited α] (points : List α) : List (List α) :=
  let num := points.length
  if num % 3 = 0 then
    (pyRange 0 num 3).map (fun i => pySlice points i (i + 3))
  else if num % 3 = 1 then
    (pyRange 0 4 2).map (fun i => pySlice points i (i + 2))
      ++ (pyRange 4 num 3).map (fun i => pySlice points i (i + 3))
  else
    [[points.getD 0 default, points.getD 1 default]]
      ++ (pyRange 2 num 3).map (fun i => pySlice points i (i + 3))

/-! ## Primitive builders (`triangulation_primitives.py`) -/

/-- `line_primitive`: the two-point base subdivision, one half-edge pair with
`inner` the edge out of the first point and `outer` its sym. -/
def line_primitive (pts_subset : List Point) : TriangulationEdges :=
  let pair := setup_edge 0 1 0
  let line : TriangulationEdges :=
    { edges := [], num_edges := 0, inner := 0, outer := 0, points := pts_subset }
  let line := (line.push_back pair.1).push_back pair.2
  let left_most_edge := pair.1.index
  let right_most_edge := (geti line.edges pair.1.index).sym
  line.set_extreme_edges left_most_edge right_most_edge

/-- `triangle_primitive`: the three-point base subdivision; edges (0,1) and
(1,2) spliced at point 1, closed by `connect` unless the points are
collinear, with extreme edges set by the orientation of point 2. -/
def triangle_primitive (pts_subset : List Point) : TriangulationEdges :=
  let triang : TriangulationEdges :=
    { edges := [], num_edges := 0, inner := 0, outer := 0, points := pts_subset }
  let pair1 := setup_edge 0 1 0
  let triang := (triang.push_back pair1.1).push_back pair1.2
  let pair2 := setup_edge 1 2 2
  let triang := (triang.push_back pair2.1).push_back pair2.2
  let triang := triang.splice pair1.2.index pair2.1.index
  let pt1 := pts_subset.getD (geti triang.edges pair1.1.index).org default
  let pt2 := pts_subset.getD (geti triang.edges pair1.1.index).dest default
  let pt3 := pts_subset.getD 2 default
  if on_right pt1 pt2 pt3 then
    let c := triang.connect pair2.1.index pair1.1.index
    c.1.set_extreme_edges pair1.1.index pair2.2.index
  else if on_left pt1 pt2 pt3 then
    let c := triang.connect pair2.1.index pair1.1.index
    c.1.set_extreme_edges (geti c.1.edges c.2).sym c.2
  else
    triang.set_extreme_edges pair1.1.index pair2.2.index

/-- The `for pts_subset in split_pts` loop of `make_primitives`, carrying the
accumulated list of primitives. -/
def make_primitives_loop (primitives : List TriangulationEdges) :
    List (List Point) → Except String (List TriangulationEdges)
  | [] => pure primitives
  | pts_subset :: rest =>
    if pts_subset.length = 2 then
      make_primitives_loop (primitives ++ [line_primitive pts_subset]) rest
    else if pts_subset.length = 3 then
      make_primitives_loop (primitives ++ [triangle_primitive pts_subset]) rest
    else if pts_subset.length = 0 then
      throw "Unexpected number of points in pts_subset"
    else
      make_primitives_loop primitives rest

/-- `make_primitives`: build one primitive per group; groups of two make a
line, groups of three a triangle, a group of zero points raises, and any
other group size is silently skipped. -/
def make_primitives (split_pts : List (List Point)) :
    Except String (List TriangulationEdges) :=
  make_primitives_loop [] split_pts

/-! ## The merge engine (`triangulation.py`) -/

/-- The `while True` loop of `lowest_common_tangent`, with fuel: advance
`left_e` while the right edge's origin is right of the left edge's line,
else advance `right_e` while the left edge's origin is left of the right
edge's line, else stop. -/
def lct_loop (h_left h_right : TriangulationEdges) : Nat → Nat → Nat → Option (Nat × Nat)
  | 0, _, _ => none
  | fuel + 1, left_e, right_e =>
    let p1 := h_left.pt (geti h_left.edges left_e).org
    let p2 := h_left.pt (geti h_left.edges left_e).dest
    let p4 := h_right.pt (geti h_right.edges right_e).org
    let p5 := h_right.pt (geti h_right.edges right_e).dest
    if on_right p1 p2 (h_right.pt (geti h_right.edges right_e).org) then
      lct_loop h_left h_right fuel
        ((geti h_left.edges (geti h_left.edges left_e).sym).onext) right_e
    else if on_left p4 p5 (h_left.pt (geti h_left.edges left_e).org) then
      lct_loop h_left h_right fuel
        left_e ((geti h_right.edges (geti h_right.edges right_e).sym).oprev)
    else
      some (left_e, right_e)

/-- `lowest_common_tangent`: run the tangent-walking loop from
`h_left.outer` and `h_right.inner`. -/
def lowest_common_tangent (h_left h_right : TriangulationEdges) (fuel : Nat) :
    Option (Nat × Nat) :=
  lct_loop h_left h_right fuel h_left.outer h_right.inner

/-- `rcand_func`: starting from candidate `rcand`, while the next candidate
around `onext` is right of the base line and the circumcircle through the
base and the current candidate contains the next candidate's destination,
kill the current candidate and advance; with fuel. -/
def rcand_func (rhull : TriangulationEdges) (rcand : Nat) (b1 b2 : Point) :
    Nat → Option (TriangulationEdges × Nat)
  | 0 => none
  | fuel + 1 =>
    let rcand_onext_dest := (geti rhull.edges (geti rhull.edges rcand).onext).dest
    let rcand_dest := (geti rhull.edges rcand).dest
    let ccw_test := on_right b1 b2 (rhull.pt rcand_onext_dest)
    let next_cand_invalid :=
      in_circle b2 b1 (rhull.pt rcand_dest) (rhull.pt rcand_onext_dest)
    if ccw_test && next_cand_invalid then
      let t := (geti rhull.edges rcand).onext
      rcand_func (rhull.kill_edge rcand) t b1 b2 fuel
    else
      some (rhull, rcand)

/-- `lcand_func`: the left-hand mirror of `rcand_func`, advancing along
`oprev`. -/
def lcand_func (lhull : TriangulationEdges) (lcand : Nat) (b1 b2 : Point) :
    Nat → Option (TriangulationEdges × Nat)
  | 0 => none
  | fuel + 1 =>
    let lcand_oprev_dest := (geti lhull.edges (geti lhull.edges lcand).oprev).dest
    let lcand_dest := (geti lhull.edges lcand).dest
    let ccw_test := on_right b1 b2 (lhull.pt lcand_oprev_dest)
    let next_cand_invalid :=
      in_circle b2 b1 (lhull.pt lcand_dest) (lhull.pt lcand_oprev_dest)
    if ccw_test && next_cand_invalid then
      let t := (geti lhull.edges lcand).oprev
      lcand_func (lhull.kill_edge lcand) t b1 b2 fuel
    else
      some (lhull, lcand)

/-- `candidate_decider`: the left candidate is the strong winner iff it is
valid and the left candidate's destination lies inside the circle through
the right candidate's destination, origin and the left candidate's origin. -/
def candidate_decider (rcand lcand : Nat) (lcand_valid : Bool)
    (triangulation : TriangulationEdges) : Bool :=
  let pt1 := triangulation.pt (geti triangulation.edges rcand).dest
  let pt2 := triangulation.pt (geti triangulation.edges rcand).org
  let pt3 := triangulation.pt (geti triangulation.edges lcand).org
  let pt4 := triangulation.pt (geti triangulation.edges lcand).dest
  lcand_valid && in_circle pt1 pt2 pt3 pt4

/-- The module-level `combine_triangulations` of `triangulation.py`: shift
the right hull's indices, concatenate the arenas, connect the initial base
edge from `sym(ldi)` to the shifted `rdi`, and fix up `inner`/`outer`. -/
def combine_hulls (ldi rdi : Nat) (hull_left hull_right : TriangulationEdges) :
    Nat × TriangulationEdges :=
  let ldo := hull_left.inner
  let rdo := hull_right.outer
  let rdi := rdi + hull_left.num_edges
  let rdo := rdo + hull_left.num_edges
  let edges := hull_left.combine_triangulations hull_right
  let c := edges.connect (geti edges.edges ldi).sym rdi
  let edges := c.1
  let base := c.2
  let ldi_org := edges.pt (geti edges.edges ldi).org
  let ldo_org := edges.pt (geti edges.edges ldo).org
  let rdi_org := edges.pt (geti edges.edges rdi).org
  let rdo_org := edges.pt (geti edges.edges rdo).org
  let ldo := if list_equal ldi_org ldo_org then base else ldo
  let rdo := if list_equal rdi_org rdo_org then (geti edges.edges base).sym else rdo
  let edges := edges.set_extreme_edges ldo rdo
  (base, edges)

/-- One iteration of the `zip_hulls` loop: find and validate the two
candidates, stop if neither is valid, otherwise advance each valid
candidate, pick the winner with `candidate_decider` and connect the new
base edge.  Returns `.inl` when the zip is complete and `.inr` with the
new state when the loop continues. -/
def zip_body (triang : TriangulationEdges) (base : Nat) (fuel : Nat) :
    Option (TriangulationEdges ⊕ (TriangulationEdges × Nat)) :=
  let base1 := triang.pt (geti triang.edges base).org
  let base2 := triang.pt (geti triang.edges base).dest
  let rcand := (geti triang.edges (geti triang.edges base).sym).onext
  let pt1 := triang.pt (geti triang.edges rcand).dest
  let rcand_valid := on_right base1 base2 pt1
  let lcand := (geti triang.edges base).oprev
  let pt2 := triang.pt (geti triang.edges lcand).dest
  let lcand_valid := on_right base1 base2 pt2
  if !rcand_valid && !lcand_valid then
    some (.inl triang)
  else
    match (if rcand_valid then rcand_func triang rcand base1 base2 fuel
           else some (triang, rcand)) with
    | none => none
    | some r =>
      match (if lcand_valid then lcand_func r.1 lcand base1 base2 fuel
             else some (r.1, lcand)) with
      | none => none
      | some l =>
        let lcand_strong_valid := candidate_decider r.2 l.2 lcand_valid l.1
        if !rcand_valid || lcand_strong_valid then
          let c := l.1.connect l.2 (geti l.1.edges base).sym
          some (.inr (c.1, c.2))
        else
          let c := l.1.connect (geti l.1.edges base).sym (geti l.1.edges r.2).sym
          some (.inr (c.1, c.2))

/-- `zip_hulls`: iterate `zip_body` until the merge is complete, with fuel. -/
def zip_hulls (base : Nat) (triang : TriangulationEdges) : Nat → Option TriangulationEdges
  | 0 => none
  | fuel + 1 =>
    match zip_body triang base fuel with
    | none => none
    | some (.inl t) => some t
    | some (.inr (t, base')) => zip_hulls base' t fuel

/-- The merge of one adjacent pair: tangent search, hull combination and
zipping, exactly as the `len(group) == 2` branch of `merge_triangulations`
performs it. -/
def merge_pair (g0 g1 : TriangulationEdges) (fuel : Nat) :
    Except String TriangulationEdges :=
  match lowest_common_tangent g0 g1 fuel with
  | none => throw "fuel exhausted in lowest_common_tangent"
  | some (ldi, rdi) =>
    let bd := combine_hulls ldi rdi g0 g1
    match zip_hulls bd.1 bd.2 fuel with
    | none => throw "fuel exhausted in zip_hulls"
    | some d_triang => pure d_triang

/-- The `for group in groups` loop of `merge_triangulations`. -/
def merge_triangulations_loop (acc : List TriangulationEdges) (fuel : Nat) :
    List (List TriangulationEdges) → Except String (List TriangulationEdges)
  | [] => pure acc
  | group :: rest =>
    if group.length = 2 then
      match merge_pair (group.getD 0 default) (group.getD 1 default) fuel with
      | .error e => .error e
      | .ok d_triang => merge_triangulations_loop (acc ++ [d_triang]) fuel rest
    else
      match group.head? with
      | none => throw "IndexError: list index out of range"
      | some g => merge_triangulations_loop (acc ++ [g]) fuel rest

/-- `merge_triangulations`: merge each adjacent pair of subdivisions (tangent
search, hull combination, zipping) and regroup the results in pairs. -/
def merge_triangulations (groups : List (List TriangulationEdges)) (fuel : Nat) :
    Except String (List (List TriangulationEdges)) :=
  match merge_triangulations_loop [] fuel groups with
  | .error e => .error e
  | .ok triangulations =>
    pure ((pyRange 0 triangulations.length 2).map
      (fun i => pySlice triangulations i (i + 2)))

/-- `recursive_group_merge`: repeat `merge_triangulations` until the first
group is a single finished triangulation, with fuel for the outer loop. -/
def recursive_group_merge :
    List (List TriangulationEdges) → Nat → Except String (List (List TriangulationEdges))
  | groups, 0 =>
    match groups.head? with
    | none => throw "IndexError: list index out of range"
    | some g =>
      if g.length = 1 then pure groups
      else throw "fuel exhausted in recursive_group_merge"
  | groups, fuel + 1 =>
    match groups.head? with
    | none => throw "IndexError: list index out of range"
    | some g =>
      if g.length = 1 then pure groups
      else
        match merge_triangulations groups (fuel + 1) with
        | .error e => .error e
        | .ok groups2 => recursive_group_merge groups2 fuel

/-- `triangulate`: split the sorted points into groups of two or three,
build the primitives, pair them up and recursively merge. -/
def triangulate (pts_subset : List Point) (fuel : Nat) :
    Except String TriangulationEdges :=
  let split_pts := groups_of_3 pts_subset
  match make_primitives split_pts with
  | .error e => .error e
  | .ok primitives =>
    let groups := (pyRange 0 primitives.length 2).map
      (fun i => pySlice primitives i (i + 2))
    match recursive_group_merge groups fuel with
    | .error e => .error e
    | .ok groups =>
      match groups with
      | (t :: _) :: _ => pure t
      | _ => throw "IndexError: list index out of range"

/-! ## Arena access lemmas -/

theorem geti_set (es : List Edge) (j : Nat) (v : Edge) (i : Nat) :
    geti (es.set j v) i = if j = i ∧ j < es.length then v else geti es i := by
  simp only [geti, List.getD_eq_getElem?_getD, List.getElem?_set]
  by_cases h1 : j = i
  · subst h1
    by_cases h2 : j < es.length
    · simp [h2]
    · have : es[j]? = none := by
        rw [List.getElem?_eq_none_iff]
        omega
      simp [h2, this]
  · simp [h1, fun h : j = i ∧ j < es.length => h1 h.1]

theorem geti_set_proj {β : Type} (f : Edge → β) (es : List Edge) (j : Nat) (v : Edge)
    (hv : f v = f (geti es j)) (i : Nat) :
    f (geti (es.set j v) i) = f (geti es i) := by
  rw [geti_set]
  split_ifs with h
  · rw [hv, h.1]
  · rfl

theorem geti_default (es : List Edge) (i : Nat) (h : es.length ≤ i) :
    geti es i = default := by
  simp only [geti, List.getD_eq_getElem?_getD]
  rw [List.getElem?_eq_none_iff.2 h]
  rfl

@[simp] theorem length_setOprev (es : List Edge) (j w : Nat) :
    (setOprev es j w).length = es.length := List.length_set ..

@[simp] theorem length_setOnext (es : List Edge) (j w : Nat) :
    (setOnext es j w).length = es.length := List.length_set ..

@[simp] theorem length_setDeactivate (es : List Edge) (j : Nat) :
    (setDeactivate es j).length = es.length := List.length_set ..

@[simp] theorem onext_setOprev (es : List Edge) (j w i : Nat) :
    (geti (setOprev es j w) i).onext = (geti es i).onext :=
  geti_set_proj Edge.onext _ _ _ (by rfl) _

@[simp] theorem sym_setOprev (es : List Edge) (j w i : Nat) :
    (geti (setOprev es j w) i).sym = (geti es i).sym :=
  geti_set_proj Edge.sym _ _ _ (by rfl) _

@[simp] theorem org_setOprev (es : List Edge) (j w i : Nat) :
    (geti (setOprev es j w) i).org = (geti es i).org :=
  geti_set_proj Edge.org _ _ _ (by rfl) _

@[simp] theorem dest_setOprev (es : List Edge) (j w i : Nat) :
    (geti (setOprev es j w) i).dest = (geti es i).dest :=
  geti_set_proj Edge.dest _ _ _ (by rfl) _

@[simp] theorem index_setOprev (es : List Edge) (j w i : Nat) :
    (geti (setOprev es j w) i).index = (geti es i).index :=
  geti_set_proj Edge.index _ _ _ (by rfl) _

@[simp] theorem deactivate_setOprev (es : List Edge) (j w i : Nat) :
    (geti (setOprev es j w) i).deactivate = (geti es i).deactivate :=
  geti_set_proj Edge.deactivate _ _ _ (by rfl) _

@[simp] theorem oprev_setOnext (es : List Edge) (j w i : Nat) :
    (geti (setOnext es j w) i).oprev = (geti es i).oprev :=
  geti_set_proj Edge.oprev _ _ _ (by rfl) _

@[simp] theorem sym_setOnext (es : List Edge) (j w i : Nat) :
    (geti (setOnext es j w) i).sym = (geti es i).sym :=
  geti_set_proj Edge.sym _ _ _ (by rfl) _

@[simp] theorem org_setOnext (es : List Edge) (j w i : Nat) :
    (geti (setOnext es j w) i).org = (geti es i).org :=
  geti_set_proj Edge.org _ _ _ (by rfl) _

@[simp] theorem dest_setOnext (es : List Edge) (j w i : Nat) :
    (geti (setOnext es j w) i).dest = (geti es i).dest :=
  geti_set_proj Edge.dest _ _ _ (by rfl) _

@[simp] theorem index_setOnext (es : List Edge) (j w i : Nat) :
    (geti (setOnext es j w) i).index = (geti es i).index :=
  geti_set_proj Edge.index _ _ _ (by rfl) _

@[simp] theorem deactivate_setOnext (es : List Edge) (j w i : Nat) :
    (geti (setOnext es j w) i).deactivate = (geti es i).deactivate :=
  geti_set_proj Edge.deactivate _ _ _ (by rfl) _

@[simp] theorem onext_setDeactivate (es : List Edge) (j i : Nat) :
    (geti (setDeactivate es j) i).onext = (geti es i).onext :=
  geti_set_proj Edge.onext _ _ _ (by rfl) _

@[simp] theorem oprev_setDeactivate (es : List Edge) (j i : Nat) :
    (geti (setDeactivate es j) i).oprev = (geti es i).oprev :=
  geti_set_proj Edge.oprev _ _ _ (by rfl) _

@[simp] theorem sym_setDeactivate (es : List Edge) (j i : Nat) :
    (geti (setDeactivate es j) i).sym = (geti es i).sym :=
  geti_set_proj Edge.sym _ _ _ (by rfl) _

@[simp] theorem org_setDeactivate (es : List Edge) (j i : Nat) :
    (geti (setDeactivate es j) i).org = (geti es i).org :=
  geti_set_proj Edge.org _ _ _ (by rfl) _

@[simp] theorem dest_setDeactivate (es : List Edge) (j i : Nat) :
    (geti (setDeactivate es j) i).dest = (geti es i).dest :=
  geti_set_proj Edge.dest _ _ _ (by rfl) _

@[simp] theorem index_setDeactivate (es : List Edge) (j i : Nat) :
    (geti (setDeactivate es j) i).index = (geti es i).index :=
  geti_set_proj Edge.index _ _ _ (by rfl) _

theorem onext_setOnext (es : List Edge) (j w i : Nat) :
    (geti (setOnext es j w) i).onext =
      if j = i ∧ j < es.length then w else (geti es i).onext := by
  rw [setOnext, geti_set]
  split_ifs <;> rfl

theorem oprev_setOprev (es : List Edge) (j w i : Nat) :
    (geti (setOprev es j w) i).oprev =
      if j = i ∧ j < es.length then w else (geti es i).oprev := by
  rw [setOprev, geti_set]
  split_ifs <;> rfl

theorem deactivate_setDeactivate (es : List Edge) (j i : Nat) :
    (geti (setDeactivate es j) i).deactivate =
      if j = i ∧ j < es.length then true else (geti es i).deactivate := by
  rw [setDeactivate, geti_set]
  split_ifs <;> rfl

@[simp] theorem length_spliceL (es : List Edge) (a b : Nat) :
    (spliceL es a b).length = es.length := by
  simp [spliceL]

/-- The fields `splice` never writes are unchanged at every arena slot. -/
theorem spliceL_frame (es : List Edge) (a b : Nat) (i : Nat) :
    (geti (spliceL es a b) i).sym = (geti es i).sym ∧
    (geti (spliceL es a b) i).org = (geti es i).org ∧
    (geti (spliceL es a b) i).dest = (geti es i).dest ∧
    (geti (spliceL es a b) i).index = (geti es i).index ∧
    (geti (spliceL es a b) i).deactivate = (geti es i).deactivate := by
  simp [spliceL]

theorem spliceL_sym (es : List Edge) (a b i : Nat) :
    (geti (spliceL es a b) i).sym = (geti es i).sym := (spliceL_frame es a b i).1

theorem spliceL_org (es : List Edge) (a b i : Nat) :
    (geti (spliceL es a b) i).org = (geti es i).org := (spliceL_frame es a b i).2.1

theorem spliceL_dest (es : List Edge) (a b i : Nat) :
    (geti (spliceL es a b) i).dest = (geti es i).dest := (spliceL_frame es a b i).2.2.1

theorem spliceL_index (es : List Edge) (a b i : Nat) :
    (geti (spliceL es a b) i).index = (geti es i).index := (spliceL_frame es a b i).2.2.2.1

theorem spliceL_deactivate (es : List Edge) (a b i : Nat) :
    (geti (spliceL es a b) i).deactivate = (geti es i).deactivate :=
  (spliceL_frame es a b i).2.2.2.2

theorem geti_append_left (es es2 : List Edge) (i : Nat) (h : i < es.length) :
    geti (es ++ es2) i = geti es i := by
  simp only [geti, List.getD_eq_getElem?_getD, List.getElem?_append, if_pos h]

theorem geti_append_self (es es2 : List Edge) (k : Nat) (h : k = es.length) :
    geti (es ++ es2) k = geti es2 0 := by
  subst h
  simp only [geti, List.getD_eq_getElem?_getD,
    List.getElem?_append_right (le_refl es.length), Nat.sub_self]

theorem geti_append_self_succ (es es2 : List Edge) (k : Nat) (h : k = es.length) :
    geti (es ++ es2) (k + 1) = geti es2 1 := by
  subst h
  rw [geti, List.getD_eq_getElem?_getD,
    List.getElem?_append_right (Nat.le_succ_of_le (le_refl es.length))]
  simp [geti, List.getD_eq_getElem?_getD]

/-- `splice`'s effect on the `onext` fields: the fields of `a` and `b` are
swapped and every other record's is untouched. -/
theorem spliceL_onext (es : List Edge) (a b : Nat) (ha : a < es.length)
    (hb : b < es.length) (i : Nat) :
    (geti (spliceL es a b) i).onext =
      if i = a then (geti es b).onext
      else if i = b then (geti es a).onext
      else (geti es i).onext := by
  simp only [spliceL, onext_setOprev, onext_setOnext, length_setOnext,
    length_setOprev]
  split_ifs <;> first | rfl | omega | simp_all

/-- `splice`'s effect on the `oprev` fields: the record named by `onext(b)`
now points back to `a`, the one named by `onext(a)` to `b`, all others are
untouched. -/
theorem spliceL_oprev (es : List Edge) (a b : Nat)
    (hna : (geti es a).onext < es.length) (hnb : (geti es b).onext < es.length)
    (i : Nat) :
    (geti (spliceL es a b) i).oprev =
      if (geti es b).onext = i then a
      else if (geti es a).onext = i then b
      else (geti es i).oprev := by
  simp only [spliceL, oprev_setOnext, onext_setOprev, oprev_setOprev,
    length_setOprev]
  split_ifs <;> first | rfl | omega

theorem list_eq_of_geti (es1 es2 : List Edge) (hl : es1.length = es2.length)
    (h : ∀ i, i < es1.length → geti es1 i = geti es2 i) : es1 = es2 := by
  apply List.ext_getElem hl
  intro i h1 h2
  have hi := h i h1
  simp only [geti, List.getD_eq_getElem?_getD, List.getElem?_eq_getElem h1,
    List.getElem?_eq_getElem h2, Option.getD_some] at hi
  exact hi

/-- Double splice at the list level: under the ring-closure precondition
`oprev(onext(e)) = e`, the second `splice(a, b)` undoes the first. -/
theorem spliceL_spliceL (es : List Edge) (a b : Nat)
    (ha : a < es.length) (hb : b < es.length)
    (hran : ∀ i, i < es.length → (geti es i).onext < es.length)
    (hdual : ∀ i, i < es.length → (geti es (geti es i).onext).oprev = i) :
    spliceL (spliceL es a b) a b = es := by
  have hna : (geti es a).onext < es.length := hran a ha
  have hnb : (geti es b).onext < es.length := hran b hb
  have ha' : a < (spliceL es a b).length := by simpa using ha
  have hb' : b < (spliceL es a b).length := by simpa using hb
  have honA : (geti (spliceL es a b) a).onext = (geti es b).onext := by
    rw [spliceL_onext es a b ha hb a]
    simp
  have honB : (geti (spliceL es a b) b).onext =
      if b = a then (geti es b).onext else (geti es a).onext := by
    rw [spliceL_onext es a b ha hb b]
    split_ifs with h1 h2 <;> simp_all
  apply list_eq_of_geti _ _ (by simp)
  intro i hi
  have hi' : i < es.length := by simpa using hi
  apply Edge.ext
  · exact ((spliceL_frame _ a b i).2.2.2.1).trans ((spliceL_frame _ a b i).2.2.2.1)
  · exact ((spliceL_frame _ a b i).2.1).trans ((spliceL_frame _ a b i).2.1)
  · exact ((spliceL_frame _ a b i).2.2.1).trans ((spliceL_frame _ a b i).2.2.1)
  · exact ((spliceL_frame _ a b i).1).trans ((spliceL_frame _ a b i).1)
  · -- onext is restored
    rw [spliceL_onext _ a b ha' hb' i, spliceL_onext es a b ha hb i, honA, honB]
    split_ifs with h1 h2 <;> simp_all
  · -- oprev is restored
    have hna' : (geti (spliceL es a b) a).onext < (spliceL es a b).length := by
      rw [honA]; simpa using hnb
    have hnb' : (geti (spliceL es a b) b).onext < (spliceL es a b).length := by
      rw [honB]; split_ifs <;> simpa
    rcases eq_or_ne b a with hba | hba
    · subst hba
      have honB' : (geti (spliceL es b b) b).onext = (geti es b).onext := by
        rw [honB]; simp
      rw [spliceL_oprev _ b b hna' hnb' i, honB',
        spliceL_oprev es b b hna hnb i]
      split_ifs with h1
      · rw [← h1]; exact (hdual b hb).symm
      · rfl
    · have honB' : (geti (spliceL es a b) b).onext = (geti es a).onext := by
        rw [honB, if_neg hba]
      rw [spliceL_oprev _ a b hna' hnb' i, honA, honB',
        spliceL_oprev es a b hna hnb i]
      split_ifs with h1 h2
      · rw [← h1]; exact (hdual a ha).symm
      · rw [← h2]; exact (hdual b hb).symm
      · rfl
  · exact ((spliceL_frame _ a b i).2.2.2.2).trans ((spliceL_frame _ a b i).2.2.2.2)

/-! ## Claim C5: splice is its own inverse -/

/-- **C5.** On any edge arena whose `onext` fields are in range and satisfy
`oprev(onext(e)) = e` for every edge `e`, and for any in-range edge indices
`a` and `b`, applying `splice(a, b)` twice in succession restores the whole
subdivision — in particular every edge's `onext` and `oprev` fields — to its
state before the first call. -/
theorem splice_splice_id (t : TriangulationEdges) (a b : Nat)
    (ha : a < t.edges.length) (hb : b < t.edges.length)
    (hran : ∀ i, i < t.edges.length → (geti t.edges i).onext < t.edges.length)
    (hdual : ∀ i, i < t.edges.length →
      (geti t.edges (geti t.edges i).onext).oprev = i) :
    (t.splice a b).splice a b = t := by
  have h := spliceL_spliceL t.edges a b ha hb hran hdual
  apply TriangulationEdges.ext <;> simp [TriangulationEdges.splice, h]

/-- A concrete double-splice arena used to witness `splice_splice_id`. -/
def spliceWitnessT : TriangulationEdges :=
  { edges := [⟨0, 0, 1, 1, 0, 0, false⟩, ⟨1, 1, 0, 0, 1, 1, false⟩,
              ⟨2, 2, 3, 3, 2, 2, false⟩, ⟨3, 3, 2, 2, 3, 3, false⟩]
    num_edges := 4, inner := 0, outer := 1
    points := [⟨0, 0⟩, ⟨1, 0⟩, ⟨2, 0⟩, ⟨3, 0⟩] }

/-- Witness for C5: splicing edges 0 and 2 of a concrete two-pair arena twice
restores the arena. -/
theorem splice_splice_id_witness :
    (spliceWitnessT.splice 0 2).splice 0 2 = spliceWitnessT :=
  splice_splice_id spliceWitnessT 0 2 (by decide) (by decide) (by decide) (by decide)

/-! ## Claim C1: the lowest-common-tangent iteration -/

/-- One step of the tangent walk as the source performs it: the first test
asks whether the **origin** of the right edge lies strictly right of the left
edge's directed line.  `.inl` continues with a new state, `.inr` stops. -/
def lct_spec_step (h_left h_right : TriangulationEdges) (s : Nat × Nat) :
    (Nat × Nat) ⊕ (Nat × Nat) :=
  let le := s.1
  let re := s.2
  if on_right (h_left.pt (geti h_left.edges le).org)
      (h_left.pt (geti h_left.edges le).dest)
      (h_right.pt (geti h_right.edges re).org) then
    .inl ((geti h_left.edges (geti h_left.edges le).sym).onext, re)
  else if on_left (h_right.pt (geti h_right.edges re).org)
      (h_right.pt (geti h_right.edges re).dest)
      (h_left.pt (geti h_left.edges le).org) then
    .inl (le, (geti h_right.edges (geti h_right.edges re).sym).oprev)
  else
    .inr (le, re)

/-- Iterate `lct_spec_step` with fuel. -/
def iterate_lct (h_left h_right : TriangulationEdges) : Nat → (Nat × Nat) → Option (Nat × Nat)
  | 0, _ => none
  | fuel + 1, s =>
    match lct_spec_step h_left h_right s with
    | .inl s' => iterate_lct h_left h_right fuel s'
    | .inr r => some r

/-- One step of the tangent walk as the claim words it: the first test asks
whether the **destination** of the right edge lies strictly right of the
left edge's directed line. -/
def lct_claim_step (h_left h_right : TriangulationEdges) (s : Nat × Nat) :
    (Nat × Nat) ⊕ (Nat × Nat) :=
  let le := s.1
  let re := s.2
  if on_right (h_left.pt (geti h_left.edges le).org)
      (h_left.pt (geti h_left.edges le).dest)
      (h_right.pt (geti h_right.edges re).dest) then
    .inl ((geti h_left.edges (geti h_left.edges le).sym).onext, re)
  else if on_left (h_right.pt (geti h_right.edges re).org)
      (h_right.pt (geti h_right.edges re).dest)
      (h_left.pt (geti h_left.edges le).org) then
    .inl (le, (geti h_right.edges (geti h_right.edges re).sym).oprev)
  else
    .inr (le, re)

/-- Iterate `lct_claim_step` with fuel. -/
def iterate_lct_claim (h_left h_right : TriangulationEdges) :
    Nat → (Nat × Nat) → Option (Nat × Nat)
  | 0, _ => none
  | fuel + 1, s =>
    match lct_claim_step h_left h_right s with
    | .inl s' => iterate_lct_claim h_left h_right fuel s'
    | .inr r => some r

/-- A left subdivision: the line primitive on (0,0)–(1,0). -/
def lctLeftT : TriangulationEdges := line_primitive [⟨0, 0⟩, ⟨1, 0⟩]

/-- A right subdivision strictly to its right: the line primitive on
(2,1)–(3,−1). -/
def lctRightT : TriangulationEdges := line_primitive [⟨2, 1⟩, ⟨3, -1⟩]

/-- **C1 counterexample.** On a concrete pair of line primitives (left one
strictly left of the right one, extreme pointers as the primitive builder
sets them), the source's `lowest_common_tangent` returns `(0, 1)` while the
iteration described by the claim — testing `dest(re)` instead of `org(re)`
in the first branch — returns `(1, 1)`: the claim's description of the loop
does not match the code. -/
theorem lct_claim_counterexample :
    lowest_common_tangent lctLeftT lctRightT 10 = some (0, 1) ∧
    iterate_lct_claim lctLeftT lctRightT 10 (lctLeftT.outer, lctRightT.inner) =
      some (1, 1) ∧
    lowest_common_tangent lctLeftT lctRightT 10 ≠
      iterate_lct_claim lctLeftT lctRightT 10 (lctLeftT.outer, lctRightT.inner) := by
  refine ⟨by decide, by decide, by decide⟩

/-- **C1 (amended).** `lowest_common_tangent(L, R)`, starting from
`le = L.outer` and `re = R.inner`, iterates exactly as follows: if `org(re)`
lies strictly to the right of the directed line `org(le)→dest(le)`, advance
`le := onext(sym(le))`; else if `org(le)` lies strictly to the left of the
directed line `org(re)→dest(re)`, advance `re := oprev(sym(re))`; else
terminate and return `(le, re)`. -/
theorem lct_iterates_spec (h_left h_right : TriangulationEdges) (fuel : Nat) :
    lowest_common_tangent h_left h_right fuel =
      iterate_lct h_left h_right fuel (h_left.outer, h_right.inner) := by
  rw [lowest_common_tangent]
  generalize h_left.outer = le
  generalize h_right.inner = re
  induction fuel generalizing le re with
  | zero => rfl
  | succ fuel ih =>
    rw [lct_loop, iterate_lct, lct_spec_step]
    dsimp only
    split_ifs with h1 h2
    · exact ih _ _
    · exact ih _ _
    · rfl

/-! ## Claim C3: the splitter -/

theorem length_pySlice {α : Type} (xs : List α) (i j : Nat) :
    (pySlice xs i j).length = min (j - i) (xs.length - i) := by
  simp [pySlice]

theorem chunk3_flatten {α : Type} (points : List α) :
    ∀ (k s : Nat), points.length - s = 3 * k →
      ((List.range' s k 3).map (fun i => pySlice points i (i + 3))).flatten =
        points.drop s := by
  intro k
  induction k with
  | zero =>
    intro s hs
    simp [List.drop_eq_nil_of_le (by omega : points.length ≤ s)]
  | succ k ih =>
    intro s hs
    rw [List.range'_succ]
    simp only [List.map_cons, List.flatten_cons]
    rw [ih (s + 3) (by omega)]
    have hd : points.drop (s + 3) = (points.drop s).drop 3 :=
      (List.drop_drop 3 s points).symm
    rw [pySlice, (by omega : s + 3 - s = 3), hd, List.take_append_drop]

theorem chunk3_sizes {α : Type} (points : List α) :
    ∀ (k s : Nat), points.length - s = 3 * k →
      ∀ g ∈ (List.range' s k 3).map (fun i => pySlice points i (i + 3)),
        g.length = 3 := by
  intro k
  induction k with
  | zero => intro s _ g hg; simp at hg
  | succ k ih =>
    intro s hs g hg
    rw [List.range'_succ, List.map_cons, List.mem_cons] at hg
    rcases hg with rfl | hg
    · rw [length_pySlice]
      omega
    · exact ih (s + 3) (by omega) g hg

theorem getD_pair_eq_take {α : Type} [Inhabited α] (points : List α)
    (h : 2 ≤ points.length) :
    [points.getD 0 default, points.getD 1 default] = points.take 2 := by
  cases points with
  | nil => simp at h
  | cons a t =>
    cases t with
    | nil => simp at h
    | cons b r => simp [List.getD]

/-- **C3 counterexample.** On the seven-element list `[0,…,6]` (length
`7 ≡ 1 (mod 3)`), `groups_of_3` emits the **first** four elements as two
pairs, `[[0,1],[2,3],[4,5,6]]`; the last four elements are not emitted as
two pairs — in particular `[5,6]` is not one of the groups. -/
theorem groups_of_3_claim_counterexample :
    groups_of_3 ([0, 1, 2, 3, 4, 5, 6] : List Nat) = [[0, 1], [2, 3], [4, 5, 6]] ∧
    ([5, 6] : List Nat) ∉ groups_of_3 ([0, 1, 2, 3, 4, 5, 6] : List Nat) := by
  decide

/-- **C3 (amended).** For every input list of length `n ≥ 2`, `groups_of_3`
returns groups of size 2 or 3 whose in-order concatenation is the input
without gaps or overlaps; and when `n % 3 = 1` it emits the **first** four
elements as two leading pairs, followed by groups of exactly three. -/
theorem groups_of_3_spec {α : Type} [Inhabited α] (points : List α)
    (h2 : 2 ≤ points.length) :
    (∀ g ∈ groups_of_3 points, g.length = 2 ∨ g.length = 3) ∧
    (groups_of_3 points).flatten = points ∧
    (points.length % 3 = 1 →
      ∃ rest, groups_of_3 points =
          pySlice points 0 2 :: pySlice points 2 4 :: rest ∧
        ∀ g ∈ rest, g.length = 3) := by
  rw [groups_of_3]
  by_cases h0 : points.length % 3 = 0
  · rw [if_pos h0]
    have hk : points.length - 0 = 3 * (points.length / 3) := by omega
    have hcount : (points.length - 0 + 3 - 1) / 3 = points.length / 3 := by omega
    rw [pyRange, hcount]
    refine ⟨fun g hg => Or.inr (chunk3_sizes points _ 0 hk g hg), ?_, fun h1 => ?_⟩
    · rw [chunk3_flatten points _ 0 hk, List.drop_zero]
    · omega
  · by_cases h1 : points.length % 3 = 1
    · rw [if_neg h0, if_pos h1]
      have h4 : 4 ≤ points.length := by omega
      have hk : points.length - 4 = 3 * ((points.length - 4) / 3) := by omega
      have hcount : (points.length - 4 + 3 - 1) / 3 = (points.length - 4) / 3 := by
        omega
      have hpair : pyRange 0 4 2 = [0, 2] := by decide
      rw [hpair, pyRange, hcount]
      simp only [List.map_cons, List.map_nil, List.cons_append, List.nil_append]
      constructor
      · intro g hg
        simp only [List.mem_cons] at hg
        rcases hg with rfl | rfl | hg
        · left; rw [length_pySlice]; omega
        · left; rw [length_pySlice]; omega
        · exact Or.inr (chunk3_sizes points _ 4 hk g hg)
      constructor
      · rw [List.flatten_cons, List.flatten_cons, chunk3_flatten points _ 4 hk]
        have d2 : points.drop 4 = (points.drop 2).drop 2 :=
          (List.drop_drop 2 2 points).symm
        rw [d2]
        simp only [pySlice, List.drop_zero, Nat.add_sub_cancel_left]
        rw [List.take_append_drop, List.take_append_drop]
      · intro _
        exact ⟨_, rfl, chunk3_sizes points _ 4 hk⟩
    · have hm2 : points.length % 3 = 2 := by omega
      rw [if_neg h0, if_neg h1]
      have hk : points.length - 2 = 3 * ((points.length - 2) / 3) := by omega
      have hcount : (points.length - 2 + 3 - 1) / 3 = (points.length - 2) / 3 := by
        omega
      rw [pyRange, hcount]
      constructor
      · intro g hg
        simp only [List.cons_append, List.nil_append, List.mem_cons] at hg
        rcases hg with rfl | hg
        · left; rfl
        · exact Or.inr (chunk3_sizes points _ 2 hk g hg)
      constructor
      · simp only [List.cons_append, List.nil_append]
        rw [List.flatten_cons, chunk3_flatten points _ 2 hk,
          getD_pair_eq_take points h2, List.take_append_drop]
      · omega

/-- Witness for C3 (amended), at the seven-element list `[0,…,6]`. -/
theorem groups_of_3_spec_witness :
    (∀ g ∈ groups_of_3 ([0, 1, 2, 3, 4, 5, 6] : List Nat),
      g.length = 2 ∨ g.length = 3) ∧
    (groups_of_3 ([0, 1, 2, 3, 4, 5, 6] : List Nat)).flatten = [0, 1, 2, 3, 4, 5, 6] ∧
    (([0, 1, 2, 3, 4, 5, 6] : List Nat).length % 3 = 1 →
      ∃ rest, groups_of_3 ([0, 1, 2, 3, 4, 5, 6] : List Nat) =
          pySlice [0, 1, 2, 3, 4, 5, 6] 0 2 :: pySlice [0, 1, 2, 3, 4, 5, 6] 2 4 :: rest ∧
        ∀ g ∈ rest, g.length = 3) :=
  groups_of_3_spec [0, 1, 2, 3, 4, 5, 6] (by decide)

/-! ## Claim C4: the primitive builder on invalid group sizes -/

theorem make_primitives_loop_error (split_pts : List (List Point)) :
    ∀ acc, (∃ g ∈ split_pts, g.length = 0) →
      ∃ msg, make_primitives_loop acc split_pts = .error msg := by
  induction split_pts with
  | nil => intro acc h; simp at h
  | cons g rest ih =>
    intro acc h
    rw [make_primitives_loop]
    rcases h with ⟨g', hg', h0⟩
    rcases List.mem_cons.mp hg' with rfl | hmem
    · rw [if_neg (by omega), if_neg (by omega), if_pos h0]
      exact ⟨_, rfl⟩
    · split_ifs with hif2 hif3 hif0
      · exact ih _ ⟨g', hmem, h0⟩
      · exact ih _ ⟨g', hmem, h0⟩
      · exact ⟨_, rfl⟩
      · exact ih _ ⟨g', hmem, h0⟩

theorem make_primitives_loop_ok (split_pts : List (List Point)) :
    ∀ acc, (∀ g ∈ split_pts, g.length ≠ 0) →
      make_primitives_loop acc split_pts =
        .ok (acc ++ (split_pts.filter (fun g => g.length == 2 || g.length == 3)).map
          (fun g => if g.length = 2 then line_primitive g else triangle_primitive g)) := by
  induction split_pts with
  | nil =>
    intro acc _
    show Except.ok acc = Except.ok _
    simp
  | cons g rest ih =>
    intro acc h
    rw [make_primitives_loop]
    split_ifs with hif2 hif3 hif0
    · rw [ih _ (fun g' hg' => h g' (List.mem_cons_of_mem _ hg'))]
      simp [List.filter_cons, hif2, List.append_assoc]
    · rw [ih _ (fun g' hg' => h g' (List.mem_cons_of_mem _ hg'))]
      simp [List.filter_cons, hif2, hif3, List.append_assoc]
    · exact absurd hif0 (h g (List.mem_cons_self _ _))
    · rw [ih _ (fun g' hg' => h g' (List.mem_cons_of_mem _ hg'))]
      simp [List.filter_cons, hif2, hif3]

/-- Four collinear points: a group of invalid size 4. -/
def fourPts : List Point := [⟨0, 0⟩, ⟨1, 0⟩, ⟨2, 0⟩, ⟨3, 0⟩]

/-- **C4 counterexample.** `make_primitives` applied to an input containing a
single group of size 4 does not raise: it returns normally with the group
silently dropped (an empty list of primitives). -/
theorem make_primitives_claim_counterexample :
    fourPts.length = 4 ∧ make_primitives [fourPts] = Except.ok [] :=
  ⟨rfl, rfl⟩

/-- **C4 (amended).** `make_primitives` signals failure exactly when some
group has size 0: an input containing an empty group raises, and an input
with no empty group returns normally, emitting a primitive for each group of
size 2 or 3 and silently dropping every group of any other size (1 or ≥ 4). -/
theorem make_primitives_spec :
    (∀ split_pts : List (List Point), (∃ g ∈ split_pts, g.length = 0) →
      ∃ msg, make_primitives split_pts = .error msg) ∧
    (∀ split_pts : List (List Point), (∀ g ∈ split_pts, g.length ≠ 0) →
      make_primitives split_pts =
        .ok ((split_pts.filter (fun g => g.length == 2 || g.length == 3)).map
          (fun g => if g.length = 2 then line_primitive g else triangle_primitive g))) := by
  constructor
  · intro split_pts h
    exact make_primitives_loop_error split_pts [] h
  · intro split_pts h
    rw [make_primitives, make_primitives_loop_ok split_pts [] h, List.nil_append]

/-- Witness for C4 (amended): an empty group raises; a lone size-4 group
returns normally with nothing emitted. -/
theorem make_primitives_spec_witness :
    (∃ msg, make_primitives [([] : List Point)] = .error msg) ∧
    make_primitives [fourPts] =
      .ok (([fourPts].filter (fun g => g.length == 2 || g.length == 3)).map
        (fun g => if g.length = 2 then line_primitive g else triangle_primitive g)) :=
  ⟨make_primitives_spec.1 [[]] ⟨[], by simp⟩,
   make_primitives_spec.2 [fourPts] (by decide)⟩

/-! ## Claim C2: triangulate on 0 or 1 points -/

/-- **C2 counterexample.** `triangulate` of the empty list does not return a
subdivision: `recursive_group_merge` evaluates `groups[0]` on an empty list
of groups and raises. -/
theorem triangulate_empty_counterexample :
    triangulate [] 2 = Except.error "IndexError: list index out of range" :=
  rfl

/-- **C2 (amended).** `triangulate` of 0 points raises (the `groups[0]`
lookup in `recursive_group_merge` fails on the empty group list), and
`triangulate` of any 1 point raises (the splitter produces `[[p], []]` and
the primitive builder raises on the empty group) — it never returns an
empty or single-point subdivision. -/
theorem triangulate_small_input_raises :
    (∀ fuel, triangulate [] fuel =
      Except.error "IndexError: list index out of range") ∧
    (∀ (p : Point) (fuel : Nat), triangulate [p] fuel =
      Except.error "Unexpected number of points in pts_subset") := by
  constructor
  · intro fuel
    cases fuel <;> rfl
  · intro p fuel
    rfl

/-! ## Structural invariants of the quad-edge arena -/

/-- All edge references stored in the arena are in range. -/
@[reducible]
def rangesInv (es : List Edge) : Prop :=
  ∀ i, i < es.length →
    (geti es i).sym < es.length ∧ (geti es i).onext < es.length ∧
      (geti es i).oprev < es.length

/-- The `oprev`/`onext` duality: each is the inverse of the other
(invariant 3 of the specification, claim C7). -/
@[reducible]
def dualInv (es : List Edge) : Prop :=
  ∀ i, i < es.length →
    (geti es (geti es i).oprev).onext = i ∧ (geti es (geti es i).onext).oprev = i

/-- The sym involution (invariant 1 of the specification, claim C6): for
every non-deactivated half-edge, `sym(sym(e)) = e`, `sym(e) ≠ e` and
`org(e) = dest(sym(e))`. -/
@[reducible]
def symInvL (es : List Edge) : Prop :=
  ∀ i, i < es.length → (geti es i).deactivate = false →
    (geti es (geti es i).sym).sym = i ∧ (geti es i).sym ≠ i ∧
      (geti es i).org = (geti es (geti es i).sym).dest

/-- Each record's stored `index` equals its arena position. -/
@[reducible]
def indexInv (es : List Edge) : Prop :=
  ∀ i, i < es.length → (geti es i).index = i

/-- The bundled well-formedness of a subdivision maintained by every public
operation of the triangulation pipeline. -/
structure ArenaInv (t : TriangulationEdges) : Prop where
  count : t.num_edges = t.edges.length
  idx : indexInv t.edges
  ranges : rangesInv t.edges
  sym : symInvL t.edges
  dual : dualInv t.edges
  inner_lt : t.inner < t.edges.length
  outer_lt : t.outer < t.edges.length

theorem spliceL_rangesInv (es : List Edge) (a b : Nat) (ha : a < es.length)
    (hb : b < es.length) (hr : rangesInv es) : rangesInv (spliceL es a b) := by
  intro i hi
  rw [length_spliceL] at hi
  rw [length_spliceL, spliceL_sym, spliceL_onext es a b ha hb i,
    spliceL_oprev es a b (hr a ha).2.1 (hr b hb).2.1 i]
  refine ⟨(hr i hi).1, ?_, ?_⟩
  · split_ifs
    · exact (hr b hb).2.1
    · exact (hr a ha).2.1
    · exact (hr i hi).2.1
  · split_ifs
    · exact ha
    · exact hb
    · exact (hr i hi).2.2

theorem spliceL_symInv (es : List Edge) (a b : Nat) (hs : symInvL es) :
    symInvL (spliceL es a b) := by
  intro i hi hd
  rw [length_spliceL] at hi
  rw [spliceL_deactivate] at hd
  rw [spliceL_sym, spliceL_sym, spliceL_org, spliceL_dest]
  exact hs i hi hd

theorem spliceL_indexInv (es : List Edge) (a b : Nat) (hx : indexInv es) :
    indexInv (spliceL es a b) := by
  intro i hi
  rw [length_spliceL] at hi
  rw [spliceL_index]
  exact hx i hi

theorem spliceL_dualInv (es : List Edge) (a b : Nat) (ha : a < es.length)
    (hb : b < es.length) (hr : rangesInv es) (hd : dualInv es) :
    dualInv (spliceL es a b) := by
  have hna : (geti es a).onext < es.length := (hr a ha).2.1
  have hnb : (geti es b).onext < es.length := (hr b hb).2.1
  have hpa : (geti es (geti es a).onext).oprev = a := (hd a ha).2
  have hpb : (geti es (geti es b).onext).oprev = b := (hd b hb).2
  intro i hi
  rw [length_spliceL] at hi
  have hni : (geti es (geti es i).onext).oprev = i := (hd i hi).2
  have hpi : (geti es (geti es i).oprev).onext = i := (hd i hi).1
  constructor
  · rw [spliceL_oprev es a b hna hnb i]
    by_cases hA : (geti es b).onext = i
    · rw [if_pos hA, spliceL_onext es a b ha hb a, if_pos rfl, hA]
    · rw [if_neg hA]
      by_cases hB : (geti es a).onext = i
      · rw [if_pos hB, spliceL_onext es a b ha hb b]
        by_cases hba : b = a
        · exact absurd (show (geti es b).onext = i by rw [hba]; exact hB) hA
        · rw [if_neg hba, if_pos rfl, hB]
      · rw [if_neg hB, spliceL_onext es a b ha hb ((geti es i).oprev)]
        have hCa : ¬ (geti es i).oprev = a := by
          intro hC
          rw [hC] at hpi
          exact hB hpi
        have hCb : ¬ (geti es i).oprev = b := by
          intro hC
          rw [hC] at hpi
          exact hA hpi
        rw [if_neg hCa, if_neg hCb]
        exact hpi
  · rw [spliceL_onext es a b ha hb i]
    by_cases hA : i = a
    · rw [if_pos hA, spliceL_oprev es a b hna hnb ((geti es b).onext), if_pos rfl,
        hA]
    · rw [if_neg hA]
      by_cases hB : i = b
      · rw [if_pos hB, spliceL_oprev es a b hna hnb ((geti es a).onext)]
        have hne : ¬ (geti es b).onext = (geti es a).onext := by
          intro h
          rw [h, hpa] at hpb
          exact hA (hB.trans hpb.symm)
        rw [if_neg hne, if_pos rfl, hB]
      · rw [if_neg hB, spliceL_oprev es a b hna hnb ((geti es i).onext)]
        have hCb : ¬ (geti es b).onext = (geti es i).onext := by
          intro h
          rw [h, hni] at hpb
          exact hB hpb
        have hCa : ¬ (geti es a).onext = (geti es i).onext := by
          intro h
          rw [h, hni] at hpa
          exact hA hpa
        rw [if_neg hCb, if_neg hCa]
        exact hni

theorem geti_map_shift (es : List Edge) (s p : Nat) (j : Nat) (hj : j < es.length) :
    geti (es.map (fun e => e.shift_indices s p)) j = (geti es j).shift_indices s p := by
  simp only [geti, List.getD_eq_getElem?_getD, List.getElem?_map,
    List.getElem?_eq_getElem hj]
  rfl

theorem geti_append_shift (es1 es2 : List Edge) (s p : Nat) (hs : s = es1.length)
    (j : Nat) (hj : j < es2.length) :
    geti (es1 ++ es2.map (fun e => e.shift_indices s p)) (s + j) =
      (geti es2 j).shift_indices s p := by
  subst hs
  rw [geti, List.getD_eq_getElem?_getD,
    List.getElem?_append_right (Nat.le_add_right _ _), Nat.add_sub_cancel_left,
    List.getElem?_map, List.getElem?_eq_getElem hj]
  simp [geti, List.getD_eq_getElem?_getD, List.getElem?_eq_getElem hj]

/-- Appending a fresh `setup_edge` pair at the end of the arena preserves the
four structural invariants (the two new records are mutually-sym
self-loops). -/
theorem push_pair_inv (es : List Edge) (o d : Nat) (k : Nat) (hk : k = es.length)
    (hr : rangesInv es) (hs : symInvL es) (hdu : dualInv es) (hx : indexInv es) :
    rangesInv (es ++ [(setup_edge o d k).1, (setup_edge o d k).2]) ∧
    symInvL (es ++ [(setup_edge o d k).1, (setup_edge o d k).2]) ∧
    dualInv (es ++ [(setup_edge o d k).1, (setup_edge o d k).2]) ∧
    indexInv (es ++ [(setup_edge o d k).1, (setup_edge o d k).2]) := by
  subst hk
  have hlen : (es ++ [(setup_edge o d es.length).1,
      (setup_edge o d es.length).2]).length = es.length + 2 := by simp
  have hgk : geti (es ++ [(setup_edge o d es.length).1,
      (setup_edge o d es.length).2]) es.length = (setup_edge o d es.length).1 :=
    geti_append_self _ _ _ rfl
  have hgk1 : geti (es ++ [(setup_edge o d es.length).1,
      (setup_edge o d es.length).2]) (es.length + 1) = (setup_edge o d es.length).2 :=
    geti_append_self_succ _ _ _ rfl
  have htri : ∀ i, i < es.length + 2 →
      i < es.length ∨ i = es.length ∨ i = es.length + 1 := by omega
  refine ⟨?_, ?_, ?_, ?_⟩
  · intro i hi
    rw [hlen] at hi ⊢
    rcases htri i hi with h | rfl | rfl
    · rw [geti_append_left _ _ i h]
      have := hr i h
      omega
    · rw [hgk]
      show es.length + 1 < es.length + 2 ∧ es.length < es.length + 2 ∧
        es.length < es.length + 2
      omega
    · rw [hgk1]
      show es.length < es.length + 2 ∧ es.length + 1 < es.length + 2 ∧
        es.length + 1 < es.length + 2
      omega
  · intro i hi hd
    rw [hlen] at hi
    rcases htri i hi with h | rfl | rfl
    · rw [geti_append_left _ _ i h] at hd ⊢
      have hsym : (geti es i).sym < es.length := (hr i h).1
      rw [geti_append_left _ _ _ hsym]
      exact hs i h hd
    · rw [hgk]
      show (geti _ (es.length + 1)).sym = es.length ∧
        es.length + 1 ≠ es.length ∧ o = (geti _ (es.length + 1)).dest
      rw [hgk1]
      exact ⟨rfl, by omega, rfl⟩
    · rw [hgk1]
      show (geti _ es.length).sym = es.length + 1 ∧
        es.length ≠ es.length + 1 ∧ d = (geti _ es.length).dest
      rw [hgk]
      exact ⟨rfl, by omega, rfl⟩
  · intro i hi
    rw [hlen] at hi
    rcases htri i hi with h | rfl | rfl
    · rw [geti_append_left _ _ i h]
      have ho : (geti es i).onext < es.length := (hr i h).2.1
      have hp : (geti es i).oprev < es.length := (hr i h).2.2
      rw [geti_append_left _ _ _ hp, geti_append_left _ _ _ ho]
      exact hdu i h
    · rw [hgk]
      show (geti _ es.length).onext = es.length ∧
        (geti _ es.length).oprev = es.length
      rw [hgk]
      exact ⟨rfl, rfl⟩
    · rw [hgk1]
      show (geti _ (es.length + 1)).onext = es.length + 1 ∧
        (geti _ (es.length + 1)).oprev = es.length + 1
      rw [hgk1]
      exact ⟨rfl, rfl⟩
  · intro i hi
    rw [hlen] at hi
    rcases htri i hi with h | rfl | rfl
    · rw [geti_append_left _ _ i h]
      exact hx i h
    · rw [hgk]
      rfl
    · rw [hgk1]
      rfl

/-- Marking one record deactivated changes no reference structure. -/
theorem setDeactivate_inv (es : List Edge) (j : Nat) :
    (rangesInv es → rangesInv (setDeactivate es j)) ∧
    (symInvL es → symInvL (setDeactivate es j)) ∧
    (dualInv es → dualInv (setDeactivate es j)) ∧
    (indexInv es → indexInv (setDeactivate es j)) := by
  refine ⟨fun hr i hi => ?_, fun hs i hi hd => ?_, fun hdu i hi => ?_,
    fun hx i hi => ?_⟩ <;>
    rw [length_setDeactivate] at hi
  · simp only [length_setDeactivate, sym_setDeactivate, onext_setDeactivate,
      oprev_setDeactivate]
    exact hr i hi
  · rw [deactivate_setDeactivate] at hd
    simp only [sym_setDeactivate, org_setDeactivate, dest_setDeactivate]
    split_ifs at hd with hj
    exact hs i hi hd
  · simp only [oprev_setDeactivate, onext_setDeactivate]
    exact hdu i hi
  · simp only [index_setDeactivate]
    exact hx i hi

/-- `kill_edge` preserves the bundled invariant. -/
theorem kill_edge_inv (t : TriangulationEdges) (e : Nat)
    (he : e < t.edges.length) (I : ArenaInv t) : ArenaInv (t.kill_edge e) := by
  obtain ⟨hc, hx, hr, hs, hdu, hin, hout⟩ := I
  have hpe : (geti t.edges e).oprev < t.edges.length := (hr e he).2.2
  -- the first splice
  have hr1 := spliceL_rangesInv t.edges e _ he hpe hr
  have hs1 := spliceL_symInv t.edges e ((geti t.edges e).oprev) hs
  have hd1 := spliceL_dualInv t.edges e _ he hpe hr hdu
  have hx1 := spliceL_indexInv t.edges e ((geti t.edges e).oprev) hx
  set es1 := spliceL t.edges e ((geti t.edges e).oprev) with hes1
  have hlen1 : es1.length = t.edges.length := length_spliceL ..
  -- the second splice
  have hse : (geti es1 e).sym < es1.length := (hr1 e (by omega)).1
  have hpse : (geti es1 (geti es1 e).sym).oprev < es1.length :=
    (hr1 _ hse).2.2
  have hr2 := spliceL_rangesInv es1 _ _ hse hpse hr1
  have hs2 := spliceL_symInv es1 ((geti es1 e).sym) ((geti es1 (geti es1 e).sym).oprev) hs1
  have hd2 := spliceL_dualInv es1 _ _ hse hpse hr1 hd1
  have hx2 := spliceL_indexInv es1 ((geti es1 e).sym) ((geti es1 (geti es1 e).sym).oprev) hx1
  set es2 := spliceL es1 ((geti es1 e).sym) ((geti es1 (geti es1 e).sym).oprev) with hes2
  have hlen2 : es2.length = t.edges.length := by
    rw [hes2, length_spliceL, hlen1]
  -- the two deactivations
  have D1 := setDeactivate_inv es2 e
  set es3 := setDeactivate es2 e with hes3
  have hlen3 : es3.length = t.edges.length := by
    rw [hes3, length_setDeactivate, hlen2]
  have D2 := setDeactivate_inv es3 (geti es3 e).sym
  set es4 := setDeactivate es3 (geti es3 e).sym with hes4
  have hlen4 : es4.length = t.edges.length := by
    rw [hes4, length_setDeactivate, hlen3]
  have hfin : (t.kill_edge e).edges = es4 := rfl
  refine ⟨?_, ?_, ?_, ?_, ?_, ?_, ?_⟩
  · show t.num_edges = (t.kill_edge e).edges.length
    rw [hfin, hlen4]
    exact hc
  · rw [hfin]
    exact D2.2.2.2 (D1.2.2.2 hx2)
  · rw [hfin]
    exact D2.1 (D1.1 hr2)
  · rw [hfin]
    exact D2.2.1 (D1.2.1 hs2)
  · rw [hfin]
    exact D2.2.2.1 (D1.2.2.1 hd2)
  · show t.inner < (t.kill_edge e).edges.length
    rw [hfin, hlen4]
    exact hin
  · show t.outer < (t.kill_edge e).edges.length
    rw [hfin, hlen4]
    exact hout

/-! ## Claim C9: connect -/

/-- Unfolding `connect` under the arena invariants: the two fresh records go
at the end of the arena, the first splice runs at `(k, oprev(sym(a)))`, the
second at `(k+1, b)`, and the returned index is `k = num_edges`. -/
theorem connect_edges_eq (t : TriangulationEdges) (a b : Nat)
    (hcount : t.num_edges = t.edges.length)
    (ha : a < t.edges.length)
    (hsa : (geti t.edges a).sym < t.edges.length) :
    (t.connect a b).1.edges =
      spliceL (spliceL (t.edges ++
          [(setup_edge (geti t.edges a).dest (geti t.edges b).org t.num_edges).1,
           (setup_edge (geti t.edges a).dest (geti t.edges b).org t.num_edges).2])
        t.num_edges ((geti t.edges (geti t.edges a).sym).oprev))
        (t.num_edges + 1) b := by
  simp only [TriangulationEdges.connect, TriangulationEdges.push_back,
    TriangulationEdges.splice, setup_edge, List.append_assoc, List.singleton_append]
  have hassoc : t.edges ++ [(⟨t.num_edges, (geti t.edges a).dest,
      (geti t.edges b).org, t.num_edges + 1, t.num_edges, t.num_edges, false⟩ : Edge),
      ⟨t.num_edges + 1, (geti t.edges b).org, (geti t.edges a).dest,
        t.num_edges, t.num_edges + 1, t.num_edges + 1, false⟩] =
      t.edges ++ [_, _] := rfl
  rw [geti_append_left _ _ a ha, geti_append_left _ _ _ hsa, spliceL_sym,
    geti_append_self _ _ t.num_edges hcount]
  rfl

/-- **C9.** For every subdivision with a consistent edge counter and every
pair of in-range, non-deactivated edge indices `a`, `b` (with `sym(a)` in
range), `connect(a, b)` appends exactly two half-edge records whose stored
indices are the prior edge count `k` and `k+1`; the record at `k` has
`org = dest(a)` and `dest = org(b)`; the result is obtained by
`splice(k, oprev(sym(a)))` followed by `splice(sym(k), b)` on the extended
arena; every previously stored edge keeps its `org`, `dest`, `sym` and
`index` fields; and the returned value is `k`. -/
theorem connect_spec (t : TriangulationEdges) (a b : Nat)
    (hcount : t.num_edges = t.edges.length)
    (ha : a < t.edges.length) (_hb : b < t.edges.length)
    (_hda : (geti t.edges a).deactivate = false)
    (_hdb : (geti t.edges b).deactivate = false)
    (hsa : (geti t.edges a).sym < t.edges.length) :
    (t.connect a b).2 = t.num_edges ∧
    (t.connect a b).1.edges.length = t.edges.length + 2 ∧
    (t.connect a b).1.num_edges = t.num_edges + 2 ∧
    (geti (t.connect a b).1.edges t.num_edges).index = t.num_edges ∧
    (geti (t.connect a b).1.edges t.num_edges).org = (geti t.edges a).dest ∧
    (geti (t.connect a b).1.edges t.num_edges).dest = (geti t.edges b).org ∧
    (geti (t.connect a b).1.edges (t.num_edges + 1)).index = t.num_edges + 1 ∧
    (t.connect a b).1.edges =
      spliceL (spliceL (t.edges ++
          [(setup_edge (geti t.edges a).dest (geti t.edges b).org t.num_edges).1,
           (setup_edge (geti t.edges a).dest (geti t.edges b).org t.num_edges).2])
        t.num_edges ((geti t.edges (geti t.edges a).sym).oprev))
        (t.num_edges + 1) b ∧
    (∀ i, i < t.edges.length →
      (geti (t.connect a b).1.edges i).org = (geti t.edges i).org ∧
      (geti (t.connect a b).1.edges i).dest = (geti t.edges i).dest ∧
      (geti (t.connect a b).1.edges i).sym = (geti t.edges i).sym ∧
      (geti (t.connect a b).1.edges i).index = (geti t.edges i).index) := by
  have hkey := connect_edges_eq t a b hcount ha hsa
  have hk : geti ((t.edges ++
      [(setup_edge (geti t.edges a).dest (geti t.edges b).org t.num_edges).1,
       (setup_edge (geti t.edges a).dest (geti t.edges b).org t.num_edges).2]))
      t.num_edges =
      (setup_edge (geti t.edges a).dest (geti t.edges b).org t.num_edges).1 :=
    geti_append_self _ _ _ hcount
  have hk1 : geti ((t.edges ++
      [(setup_edge (geti t.edges a).dest (geti t.edges b).org t.num_edges).1,
       (setup_edge (geti t.edges a).dest (geti t.edges b).org t.num_edges).2]))
      (t.num_edges + 1) =
      (setup_edge (geti t.edges a).dest (geti t.edges b).org t.num_edges).2 :=
    geti_append_self_succ _ _ _ hcount
  refine ⟨rfl, ?_, rfl, ?_, ?_, ?_, ?_, hkey, ?_⟩
  · rw [hkey]
    simp
  · rw [hkey, spliceL_index, spliceL_index, hk]
    rfl
  · rw [hkey, spliceL_org, spliceL_org, hk]
    rfl
  · rw [hkey, spliceL_dest, spliceL_dest, hk]
    rfl
  · rw [hkey, spliceL_index, spliceL_index, hk1]
    rfl
  · intro i hi
    refine ⟨?_, ?_, ?_, ?_⟩ <;>
      rw [hkey] <;>
      first
        | rw [spliceL_org, spliceL_org, geti_append_left _ _ i hi]
        | rw [spliceL_dest, spliceL_dest, geti_append_left _ _ i hi]
        | rw [spliceL_sym, spliceL_sym, geti_append_left _ _ i hi]
        | rw [spliceL_index, spliceL_index, geti_append_left _ _ i hi]

/-- A concrete two-pair arena for the C9 witness. -/
def connectWitnessT : TriangulationEdges :=
  { edges := [⟨0, 0, 1, 1, 0, 0, false⟩, ⟨1, 1, 0, 0, 1, 1, false⟩,
              ⟨2, 2, 3, 3, 2, 2, false⟩, ⟨3, 3, 2, 2, 3, 3, false⟩]
    num_edges := 4, inner := 0, outer := 1
    points := [⟨0, 0⟩, ⟨1, 0⟩, ⟨2, 1⟩, ⟨3, 1⟩] }

/-- Witness for C9, connecting edges 0 and 2 of a concrete arena. -/
theorem connect_spec_witness :
    (connectWitnessT.connect 0 2).2 = connectWitnessT.num_edges ∧
    (connectWitnessT.connect 0 2).1.edges.length = connectWitnessT.edges.length + 2 ∧
    (connectWitnessT.connect 0 2).1.num_edges = connectWitnessT.num_edges + 2 ∧
    (geti (connectWitnessT.connect 0 2).1.edges connectWitnessT.num_edges).index =
      connectWitnessT.num_edges ∧
    (geti (connectWitnessT.connect 0 2).1.edges connectWitnessT.num_edges).org =
      (geti connectWitnessT.edges 0).dest ∧
    (geti (connectWitnessT.connect 0 2).1.edges connectWitnessT.num_edges).dest =
      (geti connectWitnessT.edges 2).org ∧
    (geti (connectWitnessT.connect 0 2).1.edges (connectWitnessT.num_edges + 1)).index =
      connectWitnessT.num_edges + 1 ∧
    (connectWitnessT.connect 0 2).1.edges =
      spliceL (spliceL (connectWitnessT.edges ++
          [(setup_edge (geti connectWitnessT.edges 0).dest
              (geti connectWitnessT.edges 2).org connectWitnessT.num_edges).1,
           (setup_edge (geti connectWitnessT.edges 0).dest
              (geti connectWitnessT.edges 2).org connectWitnessT.num_edges).2])
        connectWitnessT.num_edges
        ((geti connectWitnessT.edges (geti connectWitnessT.edges 0).sym).oprev))
        (connectWitnessT.num_edges + 1) 2 ∧
    (∀ i, i < connectWitnessT.edges.length →
      (geti (connectWitnessT.connect 0 2).1.edges i).org =
        (geti connectWitnessT.edges i).org ∧
      (geti (connectWitnessT.connect 0 2).1.edges i).dest =
        (geti connectWitnessT.edges i).dest ∧
      (geti (connectWitnessT.connect 0 2).1.edges i).sym =
        (geti connectWitnessT.edges i).sym ∧
      (geti (connectWitnessT.connect 0 2).1.edges i).index =
        (geti connectWitnessT.edges i).index) :=
  connect_spec connectWitnessT 0 2 rfl (by decide) (by decide) (by decide)
    (by decide) (by decide)

/-! ## Invariant preservation by connect, merge and the primitives -/

/-- `connect` preserves the bundled invariant; the two new records land at
the end of the arena and the returned index is the old edge count. -/
theorem connect_inv (t : TriangulationEdges) (a b : Nat)
    (ha : a < t.edges.length) (hb : b < t.edges.length) (I : ArenaInv t) :
    ArenaInv (t.connect a b).1 ∧ (t.connect a b).2 = t.num_edges ∧
    (t.connect a b).1.edges.length = t.edges.length + 2 ∧
    (t.connect a b).1.num_edges = t.num_edges + 2 ∧
    (t.connect a b).1.inner = t.inner ∧ (t.connect a b).1.outer = t.outer ∧
    (t.connect a b).1.points = t.points := by
  obtain ⟨hc, hx, hr, hs, hdu, hin, hout⟩ := I
  have hsa : (geti t.edges a).sym < t.edges.length := (hr a ha).1
  have hkey := connect_edges_eq t a b hc ha hsa
  have P := push_pair_inv t.edges (geti t.edges a).dest (geti t.edges b).org
    t.num_edges hc hr hs hdu hx
  have hlen0 : (t.edges ++
      [(setup_edge (geti t.edges a).dest (geti t.edges b).org t.num_edges).1,
       (setup_edge (geti t.edges a).dest (geti t.edges b).org t.num_edges).2]).length =
      t.edges.length + 2 := by simp
  have hk0 : t.num_edges < t.edges.length + 2 := by omega
  have hq : (geti t.edges (geti t.edges a).sym).oprev < t.edges.length :=
    (hr _ hsa).2.2
  have hk0' : t.num_edges <
      (t.edges ++ [(setup_edge (geti t.edges a).dest (geti t.edges b).org
        t.num_edges).1, (setup_edge (geti t.edges a).dest (geti t.edges b).org
        t.num_edges).2]).length := by omega
  have hq' : (geti t.edges (geti t.edges a).sym).oprev <
      (t.edges ++ [(setup_edge (geti t.edges a).dest (geti t.edges b).org
        t.num_edges).1, (setup_edge (geti t.edges a).dest (geti t.edges b).org
        t.num_edges).2]).length := by omega
  have R1 := spliceL_rangesInv _ _ _ hk0' hq' P.1
  have S1 := spliceL_symInv _ t.num_edges ((geti t.edges (geti t.edges a).sym).oprev)
    P.2.1
  have D1 := spliceL_dualInv _ _ _ hk0' hq' P.1 P.2.2.1
  have X1 := spliceL_indexInv _ t.num_edges ((geti t.edges (geti t.edges a).sym).oprev)
    P.2.2.2
  have hlen1 : (spliceL (t.edges ++
      [(setup_edge (geti t.edges a).dest (geti t.edges b).org t.num_edges).1,
       (setup_edge (geti t.edges a).dest (geti t.edges b).org t.num_edges).2])
      t.num_edges ((geti t.edges (geti t.edges a).sym).oprev)).length =
      t.edges.length + 2 := by rw [length_spliceL, hlen0]
  have hk1' : t.num_edges + 1 < (spliceL (t.edges ++
      [(setup_edge (geti t.edges a).dest (geti t.edges b).org t.num_edges).1,
       (setup_edge (geti t.edges a).dest (geti t.edges b).org t.num_edges).2])
      t.num_edges ((geti t.edges (geti t.edges a).sym).oprev)).length := by omega
  have hb1' : b < (spliceL (t.edges ++
      [(setup_edge (geti t.edges a).dest (geti t.edges b).org t.num_edges).1,
       (setup_edge (geti t.edges a).dest (geti t.edges b).org t.num_edges).2])
      t.num_edges ((geti t.edges (geti t.edges a).sym).oprev)).length := by omega
  have R2 := spliceL_rangesInv _ _ _ hk1' hb1' R1
  have S2 := spliceL_symInv _ (t.num_edges + 1) b S1
  have D2 := spliceL_dualInv _ _ _ hk1' hb1' R1 D1
  have X2 := spliceL_indexInv _ (t.num_edges + 1) b X1
  have hlenF : (t.connect a b).1.edges.length = t.edges.length + 2 := by
    rw [hkey, length_spliceL, hlen1]
  refine ⟨⟨?_, ?_, ?_, ?_, ?_, ?_, ?_⟩, rfl, hlenF, rfl, rfl, rfl, rfl⟩
  · show t.num_edges + 2 = (t.connect a b).1.edges.length
    omega
  · rw [hkey]
    exact X2
  · rw [hkey]
    exact R2
  · rw [hkey]
    exact S2
  · rw [hkey]
    exact D2
  · show t.inner < (t.connect a b).1.edges.length
    omega
  · show t.outer < (t.connect a b).1.edges.length
    omega

/-- `combine_triangulations` (merge) preserves the bundled invariant: the
right arena is renumbered past the left one and the invariants compose. -/
theorem combine_inv (t1 t2 : TriangulationEdges) (I1 : ArenaInv t1)
    (I2 : ArenaInv t2) :
    ArenaInv (t1.combine_triangulations t2) ∧
    (t1.combine_triangulations t2).edges.length =
      t1.edges.length + t2.edges.length ∧
    (t1.combine_triangulations t2).num_edges = t1.num_edges + t2.num_edges ∧
    (t1.combine_triangulations t2).inner = t1.inner ∧
    (t1.combine_triangulations t2).outer = t1.outer := by
  obtain ⟨hc1, hx1, hr1, hs1, hd1, hin1, hout1⟩ := I1
  obtain ⟨hc2, hx2, hr2, hs2, hd2, hin2, hout2⟩ := I2
  have hE : (t1.combine_triangulations t2).edges =
      t1.edges ++ t2.edges.map
        (fun e => e.shift_indices t1.num_edges t1.points.length) := rfl
  have hlen : (t1.combine_triangulations t2).edges.length =
      t1.edges.length + t2.edges.length := by
    rw [hE, List.length_append, List.length_map]
  have hga : ∀ j, j < t2.edges.length →
      geti (t1.combine_triangulations t2).edges (t1.num_edges + j) =
        (geti t2.edges j).shift_indices t1.num_edges t1.points.length := by
    intro j hj
    rw [hE]
    exact geti_append_shift _ _ _ _ hc1 j hj
  have hgl : ∀ i, i < t1.edges.length →
      geti (t1.combine_triangulations t2).edges i = geti t1.edges i := by
    intro i hi
    rw [hE]
    exact geti_append_left _ _ i hi
  have hcases : ∀ i, i < t1.edges.length + t2.edges.length →
      i < t1.edges.length ∨
        (∃ j, j < t2.edges.length ∧ i = t1.num_edges + j) := by
    intro i hi
    by_cases h : i < t1.edges.length
    · exact Or.inl h
    · exact Or.inr ⟨i - t1.num_edges, by omega, by omega⟩
  refine ⟨⟨?_, ?_, ?_, ?_, ?_, ?_, ?_⟩, hlen, rfl, rfl, rfl⟩
  · show t1.num_edges + t2.num_edges = (t1.combine_triangulations t2).edges.length
    omega
  · intro i hi
    rw [hlen] at hi
    rcases hcases i hi with h | ⟨j, hj, rfl⟩
    · rw [hgl i h]
      exact hx1 i h
    · rw [hga j hj]
      show (geti t2.edges j).index + t1.num_edges = t1.num_edges + j
      rw [hx2 j hj]
      omega
  · intro i hi
    rw [hlen] at hi
    rw [hlen]
    rcases hcases i hi with h | ⟨j, hj, rfl⟩
    · rw [hgl i h]
      have := hr1 i h
      refine ⟨by omega, by omega, by omega⟩
    · rw [hga j hj]
      have := hr2 j hj
      show (geti t2.edges j).sym + t1.num_edges < _ ∧
        (geti t2.edges j).onext + t1.num_edges < _ ∧
        (geti t2.edges j).oprev + t1.num_edges < _
      refine ⟨by omega, by omega, by omega⟩
  · intro i hi hd
    rw [hlen] at hi
    rcases hcases i hi with h | ⟨j, hj, rfl⟩
    · rw [hgl i h] at hd ⊢
      have hsym : (geti t1.edges i).sym < t1.edges.length := (hr1 i h).1
      rw [hgl _ hsym]
      exact hs1 i h hd
    · rw [hga j hj] at hd ⊢
      replace hd : (geti t2.edges j).deactivate = false := hd
      have hsym : (geti t2.edges j).sym < t2.edges.length := (hr2 j hj).1
      show (geti _ ((geti t2.edges j).sym + t1.num_edges)).sym = t1.num_edges + j ∧
        (geti t2.edges j).sym + t1.num_edges ≠ t1.num_edges + j ∧
        (geti t2.edges j).org + t1.points.length =
          (geti _ ((geti t2.edges j).sym + t1.num_edges)).dest
    -- rewrite the shifted lookup
      rw [show (geti t2.edges j).sym + t1.num_edges =
        t1.num_edges + (geti t2.edges j).sym by omega, hga _ hsym]
      obtain ⟨e1, e2, e3⟩ := hs2 j hj hd
      refine ⟨?_, by omega, ?_⟩
      · show (geti t2.edges (geti t2.edges j).sym).sym + t1.num_edges =
          t1.num_edges + j
        rw [e1]
        omega
      · show (geti t2.edges j).org + t1.points.length =
          (geti t2.edges (geti t2.edges j).sym).dest + t1.points.length
        rw [e3]
  · intro i hi
    rw [hlen] at hi
    rcases hcases i hi with h | ⟨j, hj, rfl⟩
    · have ho : (geti t1.edges i).onext < t1.edges.length := (hr1 i h).2.1
      have hp : (geti t1.edges i).oprev < t1.edges.length := (hr1 i h).2.2
      rw [hgl i h, hgl _ hp, hgl _ ho]
      exact hd1 i h
    · have ho : (geti t2.edges j).onext < t2.edges.length := (hr2 j hj).2.1
      have hp : (geti t2.edges j).oprev < t2.edges.length := (hr2 j hj).2.2
      rw [hga j hj]
      show (geti _ ((geti t2.edges j).oprev + t1.num_edges)).onext =
          t1.num_edges + j ∧
        (geti _ ((geti t2.edges j).onext + t1.num_edges)).oprev = t1.num_edges + j
      rw [show (geti t2.edges j).oprev + t1.num_edges =
        t1.num_edges + (geti t2.edges j).oprev by omega, hga _ hp,
        show (geti t2.edges j).onext + t1.num_edges =
        t1.num_edges + (geti t2.edges j).onext by omega, hga _ ho]
      obtain ⟨d1, d2⟩ := hd2 j hj
      constructor
      · show (geti t2.edges (geti t2.edges j).oprev).onext + t1.num_edges =
          t1.num_edges + j
        rw [d1]
        omega
      · show (geti t2.edges (geti t2.edges j).onext).oprev + t1.num_edges =
          t1.num_edges + j
        rw [d2]
        omega
  · show t1.inner < (t1.combine_triangulations t2).edges.length
    omega
  · show t1.outer < (t1.combine_triangulations t2).edges.length
    omega

/-- `set_extreme_edges` preserves the invariant when the two recorded
indices are in range. -/
theorem set_extreme_inv (t : TriangulationEdges) (x y : Nat)
    (hx : x < t.edges.length) (hy : y < t.edges.length) (I : ArenaInv t) :
    ArenaInv (t.set_extreme_edges x y) :=
  ⟨I.count, I.idx, I.ranges, I.sym, I.dual, hx, hy⟩

/-- The concrete arena every line primitive builds. -/
def lineEdges : List Edge :=
  [⟨0, 0, 1, 1, 0, 0, false⟩, ⟨1, 1, 0, 0, 1, 1, false⟩]

/-- The concrete arena every non-collinear triangle primitive builds. -/
def triEdges6 : List Edge :=
  [⟨0, 0, 1, 1, 5, 5, false⟩, ⟨1, 1, 0, 0, 2, 2, false⟩,
   ⟨2, 1, 2, 3, 1, 1, false⟩, ⟨3, 2, 1, 2, 4, 4, false⟩,
   ⟨4, 2, 0, 5, 3, 3, false⟩, ⟨5, 0, 2, 4, 0, 0, false⟩]

/-- The concrete arena a collinear triangle primitive builds. -/
def triEdges4 : List Edge :=
  [⟨0, 0, 1, 1, 0, 0, false⟩, ⟨1, 1, 0, 0, 2, 2, false⟩,
   ⟨2, 1, 2, 3, 1, 1, false⟩, ⟨3, 2, 1, 2, 3, 3, false⟩]

theorem geti_cons_zero (e : Edge) (es : List Edge) : geti (e :: es) 0 = e := rfl

theorem geti_cons_succ (e : Edge) (es : List Edge) (n : Nat) :
    geti (e :: es) (n + 1) = geti es n := rfl

theorem geti_nil (n : Nat) : geti [] n = default := rfl

theorem line_primitive_eq (pts : List Point) :
    line_primitive pts =
      { edges := lineEdges, num_edges := 2, inner := 0, outer := 1,
        points := pts } := rfl

theorem lineEdges_invs :
    rangesInv lineEdges ∧ symInvL lineEdges ∧ dualInv lineEdges ∧
      indexInv lineEdges := by decide

theorem triEdges6_invs :
    rangesInv triEdges6 ∧ symInvL triEdges6 ∧ dualInv triEdges6 ∧
      indexInv triEdges6 := by decide

theorem triEdges4_invs :
    rangesInv triEdges4 ∧ symInvL triEdges4 ∧ dualInv triEdges4 ∧
      indexInv triEdges4 := by decide

/-- The two-point primitive satisfies the bundled invariant. -/
theorem line_primitive_inv (pts : List Point) : ArenaInv (line_primitive pts) := by
  rw [line_primitive_eq]
  have h0 : (0 : Nat) < lineEdges.length := by decide
  have h1 : (1 : Nat) < lineEdges.length := by decide
  exact ⟨rfl, lineEdges_invs.2.2.2, lineEdges_invs.1, lineEdges_invs.2.1,
    lineEdges_invs.2.2.1, h0, h1⟩

theorem setup_edge_fst (o d k : Nat) :
    (setup_edge o d k).1 = ⟨k, o, d, k + 1, k, k, false⟩ := rfl

theorem setup_edge_snd (o d k : Nat) :
    (setup_edge o d k).2 = ⟨k + 1, d, o, k, k + 1, k + 1, false⟩ := rfl

/-- The three-point primitive satisfies the bundled invariant in each of its
three orientation branches. -/
theorem triangle_primitive_inv (pts : List Point) :
    ArenaInv (triangle_primitive pts) := by
  simp only [triangle_primitive, setup_edge_fst, setup_edge_snd]
  have e14 : ((((TriangulationEdges.mk [] 0 0 0 pts).push_back
      ⟨0, 0, 1, 1, 0, 0, false⟩).push_back ⟨1, 1, 0, 0, 1, 1, false⟩).push_back
      ⟨2, 1, 2, 3, 2, 2, false⟩).push_back ⟨3, 2, 1, 2, 3, 3, false⟩ =
      TriangulationEdges.mk [⟨0, 0, 1, 1, 0, 0, false⟩, ⟨1, 1, 0, 0, 1, 1, false⟩,
        ⟨2, 1, 2, 3, 2, 2, false⟩, ⟨3, 2, 1, 2, 3, 3, false⟩] 4 0 0 pts := rfl
  rw [e14]
  have e5 : (TriangulationEdges.mk [⟨0, 0, 1, 1, 0, 0, false⟩,
      ⟨1, 1, 0, 0, 1, 1, false⟩, ⟨2, 1, 2, 3, 2, 2, false⟩,
      ⟨3, 2, 1, 2, 3, 3, false⟩] 4 0 0 pts).splice 1 2 =
      TriangulationEdges.mk triEdges4 4 0 0 pts := rfl
  rw [e5]
  have hlen4 : (TriangulationEdges.mk triEdges4 4 0 0 pts).edges.length = 4 := rfl
  have h0lt : (0 : Nat) < 4 := by decide
  have h3lt : (3 : Nat) < 4 := by decide
  have IT : ArenaInv (TriangulationEdges.mk triEdges4 4 0 0 pts) :=
    ⟨rfl, triEdges4_invs.2.2.2, triEdges4_invs.1, triEdges4_invs.2.1,
      triEdges4_invs.2.2.1, by rw [hlen4]; exact h0lt, by rw [hlen4]; exact h0lt⟩
  obtain ⟨IC, hc2, hlen6, hnum6, hin6, hout6, hpts6⟩ :=
    connect_inv (TriangulationEdges.mk triEdges4 4 0 0 pts) 2 0
      (by rw [hlen4]; decide) (by rw [hlen4]; decide) IT
  have hlen6' : ((TriangulationEdges.mk triEdges4 4 0 0 pts).connect 2 0).1.edges.length
      = 6 := by rw [hlen6, hlen4]
  split
  · exact set_extreme_inv _ 0 3 (by omega) (by omega) IC
  · split
    · refine set_extreme_inv _ _ _ ?_ ?_ IC
      · rw [hc2]
        show (geti _ 4).sym < _
        have := (IC.ranges 4 (by omega)).1
        omega
      · rw [hc2]
        show (4 : Nat) < _
        omega
    · exact set_extreme_inv _ 0 3 (by rw [hlen4]; exact h0lt)
        (by rw [hlen4]; exact h3lt) IT

/-! ## Invariant preservation along the whole pipeline -/

theorem lct_loop_range (h_left h_right : TriangulationEdges)
    (IL : ArenaInv h_left) (IR : ArenaInv h_right) :
    ∀ (fuel le re : Nat), le < h_left.edges.length → re < h_right.edges.length →
      ∀ p, lct_loop h_left h_right fuel le re = some p →
        p.1 < h_left.edges.length ∧ p.2 < h_right.edges.length := by
  intro fuel
  induction fuel with
  | zero =>
    intro le re _ _ p h
    exact absurd h (by rw [lct_loop]; simp)
  | succ fuel ih =>
    intro le re hle hre p h
    rw [lct_loop] at h
    split_ifs at h with h1 h2
    · have hsym : (geti h_left.edges le).sym < h_left.edges.length :=
        (IL.ranges le hle).1
      exact ih _ re ((IL.ranges _ hsym).2.1) hre p h
    · have hsym : (geti h_right.edges re).sym < h_right.edges.length :=
        (IR.ranges re hre).1
      exact ih le _ hle ((IR.ranges _ hsym).2.2) p h
    · cases h
      exact ⟨hle, hre⟩

theorem lowest_common_tangent_range (h_left h_right : TriangulationEdges)
    (IL : ArenaInv h_left) (IR : ArenaInv h_right) (fuel : Nat) (p : Nat × Nat)
    (h : lowest_common_tangent h_left h_right fuel = some p) :
    p.1 < h_left.edges.length ∧ p.2 < h_right.edges.length :=
  lct_loop_range h_left h_right IL IR fuel _ _ IL.outer_lt IR.inner_lt p h

theorem kill_edge_length (t : TriangulationEdges) (e : Nat) :
    (t.kill_edge e).edges.length = t.edges.length := by
  simp [TriangulationEdges.kill_edge, TriangulationEdges.splice,
    length_setDeactivate, length_spliceL]

theorem rcand_func_inv (b1 b2 : Point) :
    ∀ (fuel : Nat) (t : TriangulationEdges) (rcand : Nat), ArenaInv t →
      rcand < t.edges.length →
      ∀ r, rcand_func t rcand b1 b2 fuel = some r →
        ArenaInv r.1 ∧ r.2 < r.1.edges.length ∧
          r.1.edges.length = t.edges.length := by
  intro fuel
  induction fuel with
  | zero =>
    intro t rcand _ _ r h
    exact absurd h (by rw [rcand_func]; simp)
  | succ fuel ih =>
    intro t rcand I hc r h
    rw [rcand_func] at h
    split_ifs at h with h1
    · have honext : (geti t.edges rcand).onext < t.edges.length :=
        (I.ranges rcand hc).2.1
      have I' := kill_edge_inv t rcand hc I
      have hlen := kill_edge_length t rcand
      have := ih (t.kill_edge rcand) ((geti t.edges rcand).onext) I'
        (by omega) r h
      exact ⟨this.1, this.2.1, by omega⟩
    · cases h
      exact ⟨I, hc, rfl⟩

theorem lcand_func_inv (b1 b2 : Point) :
    ∀ (fuel : Nat) (t : TriangulationEdges) (lcand : Nat), ArenaInv t →
      lcand < t.edges.length →
      ∀ r, lcand_func t lcand b1 b2 fuel = some r →
        ArenaInv r.1 ∧ r.2 < r.1.edges.length ∧
          r.1.edges.length = t.edges.length := by
  intro fuel
  induction fuel with
  | zero =>
    intro t lcand _ _ r h
    exact absurd h (by rw [lcand_func]; simp)
  | succ fuel ih =>
    intro t lcand I hc r h
    rw [lcand_func] at h
    split_ifs at h with h1
    · have hoprev : (geti t.edges lcand).oprev < t.edges.length :=
        (I.ranges lcand hc).2.2
      have I' := kill_edge_inv t lcand hc I
      have hlen := kill_edge_length t lcand
      have := ih (t.kill_edge lcand) ((geti t.edges lcand).oprev) I'
        (by omega) r h
      exact ⟨this.1, this.2.1, by omega⟩
    · cases h
      exact ⟨I, hc, rfl⟩

theorem zip_body_inv (t : TriangulationEdges) (base fuel : Nat)
    (I : ArenaInv t) (hb : base < t.edges.length) :
    ∀ r, zip_body t base fuel = some r →
      (∀ t', r = .inl t' → ArenaInv t') ∧
      (∀ t' b', r = .inr (t', b') → ArenaInv t' ∧ b' < t'.edges.length) := by
  intro r h
  have hrc : (geti t.edges (geti t.edges base).sym).onext < t.edges.length :=
    (I.ranges _ ((I.ranges base hb).1)).2.1
  have hlc : (geti t.edges base).oprev < t.edges.length := (I.ranges base hb).2.2
  have hfin : ∀ (lt : TriangulationEdges) (lc rc : Nat), ArenaInv lt →
      lc < lt.edges.length → rc < lt.edges.length → base < lt.edges.length →
      ∀ (c : TriangulationEdges × Nat),
        (c = lt.connect lc (geti lt.edges base).sym ∨
         c = lt.connect (geti lt.edges base).sym (geti lt.edges rc).sym) →
        ArenaInv c.1 ∧ c.2 < c.1.edges.length := by
    intro lt lc rc Ilt hlc2 hrc2 hb2 c hc
    have hsb : (geti lt.edges base).sym < lt.edges.length := (Ilt.ranges base hb2).1
    have hsr : (geti lt.edges rc).sym < lt.edges.length := (Ilt.ranges rc hrc2).1
    rcases hc with rfl | rfl
    · obtain ⟨IC, hc2, hclen, _, _, _, _⟩ := connect_inv lt lc _ hlc2 hsb Ilt
      refine ⟨IC, ?_⟩
      rw [hc2, hclen]
      have := Ilt.count
      omega
    · obtain ⟨IC, hc2, hclen, _, _, _, _⟩ := connect_inv lt _ _ hsb hsr Ilt
      refine ⟨IC, ?_⟩
      rw [hc2, hclen]
      have := Ilt.count
      omega
  rw [zip_body] at h
  dsimp only at h
  split_ifs at h with hvalid hr0 hl0 hl1
  · -- both invalid: the zip stops
    cases h
    exact ⟨fun t' ht' => by cases ht'; exact I, fun t' b' ht' => by cases ht'⟩
  · -- both candidates valid
    match hrf : rcand_func t ((geti t.edges (geti t.edges base).sym).onext)
        (t.pt (geti t.edges base).org) (t.pt (geti t.edges base).dest) fuel with
    | none => rw [hrf] at h; exact absurd h (by simp)
    | some rr =>
      rw [hrf] at h
      dsimp only at h
      obtain ⟨Ir, hr2, hrlen⟩ := rcand_func_inv _ _ fuel t _ I hrc rr hrf
      match hlf : lcand_func rr.1 ((geti t.edges base).oprev)
          (t.pt (geti t.edges base).org) (t.pt (geti t.edges base).dest) fuel with
      | none => rw [hlf] at h; exact absurd h (by simp)
      | some ll =>
        rw [hlf] at h
        dsimp only at h
        obtain ⟨Il, hl2, hllen⟩ := lcand_func_inv _ _ fuel rr.1 _ Ir
          (by omega) ll hlf
        split_ifs at h <;> cases h
        · refine ⟨fun t' ht' => (nomatch ht'), fun t' b' ht' => ?_⟩
          cases ht'
          exact hfin ll.1 ll.2 rr.2 Il hl2 (by omega) (by omega) _ (Or.inl rfl)
        · refine ⟨fun t' ht' => (nomatch ht'), fun t' b' ht' => ?_⟩
          cases ht'
          exact hfin ll.1 ll.2 rr.2 Il hl2 (by omega) (by omega) _ (Or.inr rfl)
  · -- only the right candidate valid
    match hrf : rcand_func t ((geti t.edges (geti t.edges base).sym).onext)
        (t.pt (geti t.edges base).org) (t.pt (geti t.edges base).dest) fuel with
    | none => rw [hrf] at h; exact absurd h (by simp)
    | some rr =>
      rw [hrf] at h
      dsimp only at h
      obtain ⟨Ir, hr2, hrlen⟩ := rcand_func_inv _ _ fuel t _ I hrc rr hrf
      split_ifs at h <;> cases h
      · refine ⟨fun t' ht' => (nomatch ht'), fun t' b' ht' => ?_⟩
        cases ht'
        exact hfin rr.1 ((geti t.edges base).oprev) rr.2 Ir (by omega) hr2
          (by omega) _ (Or.inl rfl)
      · refine ⟨fun t' ht' => (nomatch ht'), fun t' b' ht' => ?_⟩
        cases ht'
        exact hfin rr.1 ((geti t.edges base).oprev) rr.2 Ir (by omega) hr2
          (by omega) _ (Or.inr rfl)
  · -- only the left candidate valid
    dsimp only at h
    match hlf : lcand_func t ((geti t.edges base).oprev)
        (t.pt (geti t.edges base).org) (t.pt (geti t.edges base).dest) fuel with
    | none => rw [hlf] at h; exact absurd h (by simp)
    | some ll =>
      rw [hlf] at h
      dsimp only at h
      obtain ⟨Il, hl2, hllen⟩ := lcand_func_inv _ _ fuel t _ I hlc ll hlf
      split_ifs at h <;> cases h
      · refine ⟨fun t' ht' => (nomatch ht'), fun t' b' ht' => ?_⟩
        cases ht'
        exact hfin ll.1 ll.2 ((geti t.edges (geti t.edges base).sym).onext) Il
          hl2 (by omega) (by omega) _ (Or.inl rfl)
      · refine ⟨fun t' ht' => (nomatch ht'), fun t' b' ht' => ?_⟩
        cases ht'
        exact hfin ll.1 ll.2 ((geti t.edges (geti t.edges base).sym).onext) Il
          hl2 (by omega) (by omega) _ (Or.inr rfl)
  · -- neither valid, contradicting the first guard
    exact absurd hvalid (by simp [hl1, hr0])

theorem zip_hulls_inv :
    ∀ (fuel : Nat) (t : TriangulationEdges) (base : Nat), ArenaInv t →
      base < t.edges.length →
      ∀ t', zip_hulls base t fuel = some t' → ArenaInv t' := by
  intro fuel
  induction fuel with
  | zero =>
    intro t base _ _ t' h
    exact absurd h (by rw [zip_hulls]; simp)
  | succ fuel ih =>
    intro t base I hb t' h
    rw [zip_hulls] at h
    match hbody : zip_body t base fuel with
    | none => rw [hbody] at h; exact absurd h (by simp)
    | some (Sum.inl t0) =>
      rw [hbody] at h
      cases h
      exact (zip_body_inv t base fuel I hb _ hbody).1 _ rfl
    | some (Sum.inr (t0, b0)) =>
      rw [hbody] at h
      have := (zip_body_inv t base fuel I hb _ hbody).2 t0 b0 rfl
      exact ih t0 b0 this.1 this.2 t' h

theorem set_extreme_edges_edges (t : TriangulationEdges) (x y : Nat) :
    (t.set_extreme_edges x y).edges = t.edges := rfl

theorem combine_hulls_inv (ldi rdi : Nat) (g0 g1 : TriangulationEdges)
    (I0 : ArenaInv g0) (I1 : ArenaInv g1)
    (hl : ldi < g0.edges.length) (hr : rdi < g1.edges.length) :
    ArenaInv (combine_hulls ldi rdi g0 g1).2 ∧
    (combine_hulls ldi rdi g0 g1).1 <
      (combine_hulls ldi rdi g0 g1).2.edges.length := by
  obtain ⟨IM, hlenM, hnumM, hinM, houtM⟩ := combine_inv g0 g1 I0 I1
  have hn0 := I0.count
  have hn1 := I1.count
  have hMnum := IM.count
  have hldiM : ldi < (g0.combine_triangulations g1).edges.length := by omega
  have hsldi : (geti (g0.combine_triangulations g1).edges ldi).sym <
      (g0.combine_triangulations g1).edges.length := (IM.ranges ldi hldiM).1
  have hrdiM : rdi + g0.num_edges <
      (g0.combine_triangulations g1).edges.length := by omega
  obtain ⟨IC, hc2, hlenC, hnumC, hinC, houtC, hptsC⟩ :=
    connect_inv (g0.combine_triangulations g1)
      ((geti (g0.combine_triangulations g1).edges ldi).sym)
      (rdi + g0.num_edges) hsldi hrdiM IM
  simp only [combine_hulls]
  constructor
  · refine set_extreme_inv _ _ _ ?_ ?_ IC
    · split
      · rw [hc2, hlenC]
        omega
      · rw [hlenC, hlenM]
        have := I0.inner_lt
        omega
    · split
      · exact (IC.ranges _ (by rw [hc2, hlenC]; omega)).1
      · rw [hlenC, hlenM]
        have := I1.outer_lt
        omega
  · rw [set_extreme_edges_edges, hc2, hlenC]
    omega

theorem merge_pair_inv (g0 g1 : TriangulationEdges) (fuel : Nat)
    (I0 : ArenaInv g0) (I1 : ArenaInv g1) :
    ∀ t, merge_pair g0 g1 fuel = .ok t → ArenaInv t := by
  intro t h
  rw [merge_pair] at h
  match hlct : lowest_common_tangent g0 g1 fuel with
  | none => rw [hlct] at h; nomatch h
  | some (ldi, rdi) =>
    rw [hlct] at h
    dsimp only at h
    obtain ⟨hp1, hp2⟩ :=
      lowest_common_tangent_range g0 g1 I0 I1 fuel (ldi, rdi) hlct
    obtain ⟨IB, hbase⟩ := combine_hulls_inv ldi rdi g0 g1 I0 I1 hp1 hp2
    match hz : zip_hulls (combine_hulls ldi rdi g0 g1).1
        (combine_hulls ldi rdi g0 g1).2 fuel with
    | none => rw [hz] at h; nomatch h
    | some d =>
      rw [hz] at h
      cases h
      exact zip_hulls_inv fuel _ _ IB hbase _ hz

theorem getD_mem {α : Type} (l : List α) (i : Nat) (d : α) (h : i < l.length) :
    l.getD i d ∈ l := by
  rw [List.getD_eq_getElem l d h]
  exact List.getElem_mem h

theorem mem_of_head?_eq {α : Type} (l : List α) (a : α) (h : l.head? = some a) :
    a ∈ l := by
  cases l with
  | nil => cases h
  | cons x xs => cases h; exact List.mem_cons_self _ _

theorem mem_of_mem_pySlice {α : Type} (xs : List α) (i j : Nat) (a : α)
    (h : a ∈ pySlice xs i j) : a ∈ xs :=
  List.mem_of_mem_drop (List.mem_of_mem_take h)

theorem merge_triangulations_loop_inv (fuel : Nat) :
    ∀ (groups : List (List TriangulationEdges)) (acc : List TriangulationEdges),
      (∀ g ∈ groups, ∀ u ∈ g, ArenaInv u) → (∀ u ∈ acc, ArenaInv u) →
      ∀ res, merge_triangulations_loop acc fuel groups = .ok res →
        ∀ u ∈ res, ArenaInv u := by
  intro groups
  induction groups with
  | nil =>
    intro acc _ hacc res h u hu
    cases h
    exact hacc u hu
  | cons group rest ih =>
    intro acc hg hacc res h u hu
    rw [merge_triangulations_loop] at h
    split_ifs at h with h2
    · have hg0 : ArenaInv (group.getD 0 default) :=
        hg group (List.mem_cons_self _ _) _ (getD_mem _ _ _ (by omega))
      have hg1 : ArenaInv (group.getD 1 default) :=
        hg group (List.mem_cons_self _ _) _ (getD_mem _ _ _ (by omega))
      match hmp : merge_pair (group.getD 0 default) (group.getD 1 default) fuel with
      | .error e => rw [hmp] at h; nomatch h
      | .ok d =>
        rw [hmp] at h
        have hd := merge_pair_inv _ _ fuel hg0 hg1 d hmp
        refine ih (acc ++ [d]) (fun g hgm => hg g (List.mem_cons_of_mem _ hgm))
          ?_ res h u hu
        intro v hv
        rcases List.mem_append.mp hv with hv | hv
        · exact hacc v hv
        · rw [List.mem_singleton] at hv
          subst hv
          exact hd
    · match hh : group.head? with
      | none => rw [hh] at h; nomatch h
      | some g0 =>
        rw [hh] at h
        have hg0 : ArenaInv g0 :=
          hg group (List.mem_cons_self _ _) g0 (mem_of_head?_eq _ _ hh)
        refine ih (acc ++ [g0]) (fun g hgm => hg g (List.mem_cons_of_mem _ hgm))
          ?_ res h u hu
        intro v hv
        rcases List.mem_append.mp hv with hv | hv
        · exact hacc v hv
        · rw [List.mem_singleton] at hv
          subst hv
          exact hg0

theorem merge_triangulations_inv (groups : List (List TriangulationEdges))
    (fuel : Nat) (H : ∀ g ∈ groups, ∀ u ∈ g, ArenaInv u) :
    ∀ res, merge_triangulations groups fuel = .ok res →
      ∀ g ∈ res, ∀ u ∈ g, ArenaInv u := by
  intro res h g hgm u hu
  rw [merge_triangulations] at h
  match hloop : merge_triangulations_loop [] fuel groups with
  | .error e => rw [hloop] at h; nomatch h
  | .ok tris =>
    rw [hloop] at h
    cases h
    rcases List.mem_map.mp hgm with ⟨i, _, rfl⟩
    exact merge_triangulations_loop_inv fuel groups [] H
      (fun v hv => absurd hv (List.not_mem_nil v)) tris hloop u
      (mem_of_mem_pySlice _ _ _ _ hu)

theorem recursive_group_merge_inv :
    ∀ (fuel : Nat) (groups : List (List TriangulationEdges)),
      (∀ g ∈ groups, ∀ u ∈ g, ArenaInv u) →
      ∀ res, recursive_group_merge groups fuel = .ok res →
        ∀ g ∈ res, ∀ u ∈ g, ArenaInv u := by
  intro fuel
  induction fuel with
  | zero =>
    intro groups H res h
    rw [recursive_group_merge] at h
    match hh : groups.head? with
    | none => rw [hh] at h; nomatch h
    | some g0 =>
      rw [hh] at h
      dsimp only at h
      split_ifs at h with h1
      · cases h
        exact H
  | succ fuel ih =>
    intro groups H res h
    rw [recursive_group_merge] at h
    match hh : groups.head? with
    | none => rw [hh] at h; nomatch h
    | some g0 =>
      rw [hh] at h
      dsimp only at h
      split_ifs at h with h1
      · cases h
        exact H
      · match hmt : merge_triangulations groups (fuel + 1) with
        | .error e => rw [hmt] at h; nomatch h
        | .ok groups2 =>
          rw [hmt] at h
          exact ih groups2
            (merge_triangulations_inv groups (fuel + 1) H groups2 hmt) res h

theorem make_primitives_loop_inv :
    ∀ (split_pts : List (List Point)) (acc : List TriangulationEdges),
      (∀ u ∈ acc, ArenaInv u) →
      ∀ res, make_primitives_loop acc split_pts = .ok res →
        ∀ u ∈ res, ArenaInv u := by
  intro split_pts
  induction split_pts with
  | nil =>
    intro acc hacc res h
    cases h
    exact hacc
  | cons g rest ih =>
    intro acc hacc res h
    rw [make_primitives_loop] at h
    split_ifs at h with h2 h3 h0
    · refine ih _ ?_ res h
      intro v hv
      rcases List.mem_append.mp hv with hv | hv
      · exact hacc v hv
      · rw [List.mem_singleton] at hv
        subst hv
        exact line_primitive_inv g
    · refine ih _ ?_ res h
      intro v hv
      rcases List.mem_append.mp hv with hv | hv
      · exact hacc v hv
      · rw [List.mem_singleton] at hv
        subst hv
        exact triangle_primitive_inv g
    · exact ih _ hacc res h

theorem triangulate_inv (pts : List Point) (fuel : Nat) :
    ∀ t, triangulate pts fuel = .ok t → ArenaInv t := by
  intro t h
  rw [triangulate] at h
  dsimp only at h
  match hmp : make_primitives (groups_of_3 pts) with
  | .error e => rw [hmp] at h; nomatch h
  | .ok prims =>
    rw [hmp] at h
    dsimp only at h
    have Hp : ∀ u ∈ prims, ArenaInv u :=
      make_primitives_loop_inv (groups_of_3 pts) []
        (fun v hv => absurd hv (List.not_mem_nil v)) prims hmp
    have Hg : ∀ g ∈ (pyRange 0 prims.length 2).map
        (fun i => pySlice prims i (i + 2)), ∀ u ∈ g, ArenaInv u := by
      intro g hgm u hu
      rcases List.mem_map.mp hgm with ⟨i, _, rfl⟩
      exact Hp u (mem_of_mem_pySlice _ _ _ _ hu)
    match hrgm : recursive_group_merge ((pyRange 0 prims.length 2).map
        (fun i => pySlice prims i (i + 2))) fuel with
    | .error e => rw [hrgm] at h; nomatch h
    | .ok groups2 =>
      rw [hrgm] at h
      have H2 := recursive_group_merge_inv fuel _ Hg groups2 hrgm
      rcases groups2 with _ | ⟨g2, rest2⟩
      · nomatch h
      · rcases g2 with _ | ⟨t0, gtail⟩
        · nomatch h
        · cases h
          exact H2 _ (List.mem_cons_self _ _) _ (List.mem_cons_self _ _)

/-! ## Claim C6: the sym involution -/

/-- **C6.** After every completed public operation — the push_back of a fresh
`setup_edge` pair, `connect`, `kill_edge`, the index-shifting merge
(`combine_triangulations`) and a full `triangulate` — every non-deactivated
half-edge `e` of the subdivision satisfies `sym(sym(e)) = e`, `sym(e) ≠ e`
and `org(e) = dest(sym(e))`. -/
theorem sym_involution :
    (∀ (t : TriangulationEdges) (o d : Nat), ArenaInv t →
      symInvL ((t.push_back (setup_edge o d t.num_edges).1).push_back
        (setup_edge o d t.num_edges).2).edges) ∧
    (∀ (t : TriangulationEdges) (a b : Nat), ArenaInv t → a < t.edges.length →
      b < t.edges.length → symInvL (t.connect a b).1.edges) ∧
    (∀ (t : TriangulationEdges) (e : Nat), ArenaInv t → e < t.edges.length →
      symInvL (t.kill_edge e).edges) ∧
    (∀ (t1 t2 : TriangulationEdges), ArenaInv t1 → ArenaInv t2 →
      symInvL (t1.combine_triangulations t2).edges) ∧
    (∀ (pts : List Point) (fuel : Nat) (t : TriangulationEdges),
      triangulate pts fuel = .ok t → symInvL t.edges) := by
  refine ⟨?_, ?_, ?_, ?_, ?_⟩
  · intro t o d I
    have h : ((t.push_back (setup_edge o d t.num_edges).1).push_back
        (setup_edge o d t.num_edges).2).edges =
        t.edges ++ [(setup_edge o d t.num_edges).1,
          (setup_edge o d t.num_edges).2] := by
      simp [TriangulationEdges.push_back]
    rw [h]
    exact (push_pair_inv t.edges o d t.num_edges I.count I.ranges I.sym I.dual
      I.idx).2.1
  · intro t a b I ha hb
    exact ((connect_inv t a b ha hb I).1).sym
  · intro t e I he
    exact (kill_edge_inv t e he I).sym
  · intro t1 t2 I1 I2
    exact ((combine_inv t1 t2 I1 I2).1).sym
  · intro pts fuel t h
    exact (triangulate_inv pts fuel t h).sym

/-- Three non-collinear points for the C6 witness. -/
def trianglePts : List Point := [⟨0, 0⟩, ⟨1, 0⟩, ⟨0, 1⟩]

/-- A concrete well-formed two-pair subdivision (shared with the duality
witness). -/
def symWitnessT : TriangulationEdges :=
  { edges := [⟨0, 0, 1, 1, 0, 0, false⟩, ⟨1, 1, 0, 0, 1, 1, false⟩,
              ⟨2, 2, 3, 3, 2, 2, false⟩, ⟨3, 3, 2, 2, 3, 3, false⟩]
    num_edges := 4, inner := 0, outer := 3
    points := [⟨0, 0⟩, ⟨1, 0⟩, ⟨2, 0⟩, ⟨3, 1⟩] }

theorem symWitnessT_inv : ArenaInv symWitnessT :=
  ⟨rfl, by decide, by decide, by decide, by decide, by decide, by decide⟩

/-- Witness for C6: each part of the involution theorem applied to concrete
inputs, the `triangulate` part on a three-point input that completes. -/
theorem sym_involution_witness :
    symInvL ((symWitnessT.push_back (setup_edge 4 5 symWitnessT.num_edges).1).push_back
      (setup_edge 4 5 symWitnessT.num_edges).2).edges ∧
    symInvL (symWitnessT.connect 0 2).1.edges ∧
    symInvL (symWitnessT.kill_edge 0).edges ∧
    symInvL (symWitnessT.combine_triangulations symWitnessT).edges ∧
    symInvL (triangle_primitive trianglePts).edges :=
  ⟨sym_involution.1 symWitnessT 4 5 symWitnessT_inv,
   sym_involution.2.1 symWitnessT 0 2 symWitnessT_inv (by decide) (by decide),
   sym_involution.2.2.1 symWitnessT 0 symWitnessT_inv (by decide),
   sym_involution.2.2.2.1 symWitnessT symWitnessT symWitnessT_inv symWitnessT_inv,
   sym_involution.2.2.2.2 trianglePts 1 (triangle_primitive trianglePts) rfl⟩

/-! ## Claim C7: oprev–onext duality -/

/-- **C7.** The `oprev`/`onext` duality — `onext(oprev(e)) = e` and
`oprev(onext(e)) = e` for every half-edge — holds after each public
operation: it is established by pushing a fresh `setup_edge` pair and
preserved by every `splice`, `connect`, `kill_edge` and merge
(`combine_triangulations`) on a well-formed subdivision. -/
theorem oprev_onext_duality :
    (∀ (t : TriangulationEdges) (o d : Nat), ArenaInv t →
      dualInv ((t.push_back (setup_edge o d t.num_edges).1).push_back
        (setup_edge o d t.num_edges).2).edges) ∧
    (∀ (t : TriangulationEdges) (a b : Nat), ArenaInv t → a < t.edges.length →
      b < t.edges.length → dualInv (t.splice a b).edges) ∧
    (∀ (t : TriangulationEdges) (a b : Nat), ArenaInv t → a < t.edges.length →
      b < t.edges.length → dualInv (t.connect a b).1.edges) ∧
    (∀ (t : TriangulationEdges) (e : Nat), ArenaInv t → e < t.edges.length →
      dualInv (t.kill_edge e).edges) ∧
    (∀ (t1 t2 : TriangulationEdges), ArenaInv t1 → ArenaInv t2 →
      dualInv (t1.combine_triangulations t2).edges) := by
  refine ⟨?_, ?_, ?_, ?_, ?_⟩
  · intro t o d I
    have h : ((t.push_back (setup_edge o d t.num_edges).1).push_back
        (setup_edge o d t.num_edges).2).edges =
        t.edges ++ [(setup_edge o d t.num_edges).1, (setup_edge o d t.num_edges).2] := by
      simp [TriangulationEdges.push_back]
    rw [h]
    exact (push_pair_inv t.edges o d t.num_edges I.count I.ranges I.sym I.dual
      I.idx).2.2.1
  · intro t a b I ha hb
    exact spliceL_dualInv t.edges a b ha hb I.ranges I.dual
  · intro t a b I ha hb
    exact ((connect_inv t a b ha hb I).1).dual
  · intro t e I he
    exact (kill_edge_inv t e he I).dual
  · intro t1 t2 I1 I2
    exact ((combine_inv t1 t2 I1 I2).1).dual

/-- A concrete well-formed two-pair subdivision for the C7 witness. -/
def dualWitnessT : TriangulationEdges :=
  { edges := [⟨0, 0, 1, 1, 0, 0, false⟩, ⟨1, 1, 0, 0, 1, 1, false⟩,
              ⟨2, 2, 3, 3, 2, 2, false⟩, ⟨3, 3, 2, 2, 3, 3, false⟩]
    num_edges := 4, inner := 0, outer := 3
    points := [⟨0, 0⟩, ⟨1, 0⟩, ⟨2, 0⟩, ⟨3, 1⟩] }

theorem dualWitnessT_inv : ArenaInv dualWitnessT :=
  ⟨rfl, by decide, by decide, by decide, by decide, by decide, by decide⟩

/-- Witness for C7 on a concrete subdivision. -/
theorem oprev_onext_duality_witness :
    dualInv ((dualWitnessT.push_back (setup_edge 4 5 dualWitnessT.num_edges).1).push_back
      (setup_edge 4 5 dualWitnessT.num_edges).2).edges ∧
    dualInv (dualWitnessT.splice 0 2).edges ∧
    dualInv (dualWitnessT.connect 0 2).1.edges ∧
    dualInv (dualWitnessT.kill_edge 0).edges ∧
    dualInv (dualWitnessT.combine_triangulations dualWitnessT).edges :=
  ⟨oprev_onext_duality.1 dualWitnessT 4 5 dualWitnessT_inv,
   oprev_onext_duality.2.1 dualWitnessT 0 2 dualWitnessT_inv (by decide) (by decide),
   oprev_onext_duality.2.2.1 dualWitnessT 0 2 dualWitnessT_inv (by decide) (by decide),
   oprev_onext_duality.2.2.2.1 dualWitnessT 0 dualWitnessT_inv (by decide),
   oprev_onext_duality.2.2.2.2 dualWitnessT dualWitnessT dualWitnessT_inv
     dualWitnessT_inv⟩

/-! ## Claim C8: candidate selection while zipping -/

/-- **C8.** In a zip iteration where both candidates are valid (both
destinations strictly right of the base line), after the two candidate
advances the left candidate is selected iff
`in_circle(dest(rcand), org(rcand), org(lcand), dest(lcand))`; when the left
candidate wins the new base edge is `connect(lcand, sym(base))`, and when
the right candidate wins it is `connect(sym(base), sym(rcand))`. -/
theorem zip_selection_spec (t : TriangulationEdges) (base fuel : Nat)
    (rr ll : TriangulationEdges × Nat)
    (hrv : on_right (t.pt (geti t.edges base).org) (t.pt (geti t.edges base).dest)
      (t.pt (geti t.edges ((geti t.edges (geti t.edges base).sym).onext)).dest) = true)
    (hlv : on_right (t.pt (geti t.edges base).org) (t.pt (geti t.edges base).dest)
      (t.pt (geti t.edges ((geti t.edges base).oprev)).dest) = true)
    (hrf : rcand_func t ((geti t.edges (geti t.edges base).sym).onext)
      (t.pt (geti t.edges base).org) (t.pt (geti t.edges base).dest) fuel = some rr)
    (hlf : lcand_func rr.1 ((geti t.edges base).oprev)
      (t.pt (geti t.edges base).org) (t.pt (geti t.edges base).dest) fuel = some ll) :
    zip_body t base fuel = some (.inr
      (if in_circle (ll.1.pt (geti ll.1.edges rr.2).dest)
          (ll.1.pt (geti ll.1.edges rr.2).org)
          (ll.1.pt (geti ll.1.edges ll.2).org)
          (ll.1.pt (geti ll.1.edges ll.2).dest) = true
       then ll.1.connect ll.2 (geti ll.1.edges base).sym
       else ll.1.connect (geti ll.1.edges base).sym (geti ll.1.edges rr.2).sym)) := by
  rw [zip_body]
  dsimp only
  rw [hrv, hlv, if_neg (by decide), if_pos rfl, hrf]
  dsimp only
  rw [if_pos rfl, hlf]
  dsimp only
  simp only [candidate_decider, Bool.not_true, Bool.false_or, Bool.true_and]
  by_cases hX : in_circle (ll.1.pt (geti ll.1.edges rr.2).dest)
      (ll.1.pt (geti ll.1.edges rr.2).org)
      (ll.1.pt (geti ll.1.edges ll.2).org)
      (ll.1.pt (geti ll.1.edges ll.2).dest) = true
  · rw [if_pos hX, if_pos hX]
  · rw [if_neg hX, if_neg hX]

/-- The subdivision obtained by combining the hulls of the two vertical line
primitives of a unit square, just before the first zip iteration; the base
edge is 4 and both candidates (2 on the right, 0 on the left) are valid. -/
def sqT : TriangulationEdges :=
  { edges := [⟨0, 0, 1, 1, 4, 4, false⟩, ⟨1, 1, 0, 0, 1, 1, false⟩,
              ⟨2, 2, 3, 3, 5, 5, false⟩, ⟨3, 3, 2, 2, 3, 3, false⟩,
              ⟨4, 0, 2, 5, 0, 0, false⟩, ⟨5, 2, 0, 4, 2, 2, false⟩]
    num_edges := 6, inner := 4, outer := 3
    points := [⟨0, 0⟩, ⟨0, 1⟩, ⟨1, 0⟩, ⟨1, 1⟩] }

/-- Witness for C8 at the concrete square-merge state: both candidates are
valid, neither advances, and the selection follows the `in_circle` test. -/
theorem zip_selection_spec_witness :
    zip_body sqT 4 1 = some (.inr
      (if in_circle (sqT.pt (geti sqT.edges 2).dest) (sqT.pt (geti sqT.edges 2).org)
          (sqT.pt (geti sqT.edges 0).org) (sqT.pt (geti sqT.edges 0).dest) = true
       then sqT.connect 0 (geti sqT.edges 4).sym
       else sqT.connect (geti sqT.edges 4).sym (geti sqT.edges 2).sym)) :=
  zip_selection_spec sqT 4 1 (sqT, 2) (sqT, 0) (by decide) (by decide) rfl rfl

/-! ## Claim C10: filter_deactivated -/

theorem geti_eq_getElem (es : List Edge) (i : Nat) (h : i < es.length) :
    geti es i = es[i] := by
  simp [geti, List.getD_eq_getElem?_getD, List.getElem?_eq_getElem h]

/-- A concrete arena of two independent edge pairs, used for C10. -/
def killWitnessT : TriangulationEdges :=
  { edges := [⟨0, 0, 1, 1, 0, 0, false⟩, ⟨1, 1, 0, 0, 1, 1, false⟩,
              ⟨2, 2, 3, 3, 2, 2, false⟩, ⟨3, 3, 2, 2, 3, 3, false⟩]
    num_edges := 4, inner := 0, outer := 1
    points := [⟨0, 0⟩, ⟨1, 0⟩, ⟨2, 0⟩, ⟨3, 0⟩] }

/-- **C10 counterexample.** Killing the trailing pair (edges 2 and 3) of a
concrete arena and filtering leaves `num_edges` (4) above the list length
(2), as the claim says — but every surviving edge's position still equals
its stored `index` field, refuting the claim's final consequent. -/
theorem filter_deactivated_claim_counterexample :
    (∃ e ∈ (killWitnessT.kill_edge 2).edges, e.deactivate = true) ∧
    (killWitnessT.kill_edge 2).num_edges = (killWitnessT.kill_edge 2).edges.length ∧
    (∀ i, i < (killWitnessT.kill_edge 2).edges.length →
      (geti (killWitnessT.kill_edge 2).edges i).index = i) ∧
    (killWitnessT.kill_edge 2).filter_deactivated.num_edges >
      (killWitnessT.kill_edge 2).filter_deactivated.edges.length ∧
    ∀ p, p < (killWitnessT.kill_edge 2).filter_deactivated.edges.length →
      (geti (killWitnessT.kill_edge 2).filter_deactivated.edges p).index = p := by
  decide

/-- **C10 (amended).** `filter_deactivated` removes exactly the deactivated
edges and changes nothing else: the survivors are a sublist of the arena
(fields untouched, order kept), every survivor is non-deactivated, every
non-deactivated edge survives, and `num_edges`, `inner`, `outer` and the
point list are unchanged.  Consequently, whenever at least one edge has been
killed, the `num_edges` field exceeds the length of the edges list; and
whenever moreover some surviving edge follows a killed edge in the arena,
some edge's position in the list no longer equals its stored `index`. -/
theorem filter_deactivated_spec :
    (∀ t : TriangulationEdges,
      t.filter_deactivated.edges.Sublist t.edges ∧
      (∀ e ∈ t.filter_deactivated.edges, e.deactivate = false) ∧
      (∀ e ∈ t.edges, e.deactivate = false → e ∈ t.filter_deactivated.edges) ∧
      t.filter_deactivated.num_edges = t.num_edges ∧
      t.filter_deactivated.inner = t.inner ∧
      t.filter_deactivated.outer = t.outer ∧
      t.filter_deactivated.points = t.points) ∧
    (∀ t : TriangulationEdges, t.num_edges = t.edges.length →
      (∃ e ∈ t.edges, e.deactivate = true) →
      t.filter_deactivated.edges.length < t.filter_deactivated.num_edges) ∧
    (∀ t : TriangulationEdges, t.num_edges = t.edges.length →
      (∀ i, i < t.edges.length → (geti t.edges i).index = i) →
      ∀ i j, i < j → j < t.edges.length →
        (geti t.edges i).deactivate = true →
        (geti t.edges j).deactivate = false →
        ∃ p, p < t.filter_deactivated.edges.length ∧
          (geti t.filter_deactivated.edges p).index ≠ p) := by
  refine ⟨fun t => ⟨List.filter_sublist _, ?_, ?_, rfl, rfl, rfl, rfl⟩, ?_, ?_⟩
  · intro e he
    have := List.of_mem_filter he
    simpa using this
  · intro e he hd
    exact List.mem_filter.mpr ⟨he, by simp [hd]⟩
  · intro t hn ⟨e, he, hd⟩
    have : (t.edges.filter (fun e => e.deactivate == false)).length < t.edges.length :=
      List.length_filter_lt_length_iff_exists.mpr ⟨e, he, by simp [hd]⟩
    show (t.edges.filter (fun e => e.deactivate == false)).length < t.num_edges
    omega
  · intro t hn hidx i j hij hj hdi hdj
    have hi : i < t.edges.length := by omega
    -- decompose the filtered arena at position j
    have hsplit : t.edges = t.edges.take j ++ t.edges.drop j :=
      (List.take_append_drop j t.edges).symm
    have hdropj : t.edges.drop j = t.edges[j] :: t.edges.drop (j + 1) :=
      List.drop_eq_getElem_cons hj
    have hpredj : ((fun e => e.deactivate == false) t.edges[j]) = true := by
      rw [← geti_eq_getElem t.edges j hj] at *
      simp [hdj]
    have hfil : t.edges.filter (fun e => e.deactivate == false) =
        (t.edges.take j).filter (fun e => e.deactivate == false) ++
          t.edges[j] :: (t.edges.drop (j + 1)).filter (fun e => e.deactivate == false) := by
      conv_lhs => rw [hsplit]
      rw [List.filter_append, hdropj, List.filter_cons, if_pos hpredj]
    set p := ((t.edges.take j).filter (fun e => e.deactivate == false)).length with hp
    have hplt : p < j := by
      have h1 : ((t.edges.take j).filter (fun e => e.deactivate == false)).length <
          (t.edges.take j).length := by
        apply List.length_filter_lt_length_iff_exists.mpr
        have hilt : i < (t.edges.take j).length := by
          simp [List.length_take]
          omega
        refine ⟨(t.edges.take j)[i], List.getElem_mem hilt, ?_⟩
        rw [List.getElem_take, ← geti_eq_getElem t.edges i hi]
        simp [hdi]
      have h2 : (t.edges.take j).length = j := by
        simp [List.length_take]
        omega
      omega
    refine ⟨p, ?_, ?_⟩
    · show p < (t.edges.filter (fun e => e.deactivate == false)).length
      rw [hfil, List.length_append, List.length_cons]
      omega
    · show (geti (t.edges.filter (fun e => e.deactivate == false)) p).index ≠ p
      have h0 : p - ((t.edges.take j).filter (fun e => e.deactivate == false)).length
          = 0 := by omega
      have hgp : geti (t.edges.filter (fun e => e.deactivate == false)) p =
          t.edges[j] := by
        rw [hfil, geti, List.getD_eq_getElem?_getD,
          List.getElem?_append_right hp.symm.le, h0, List.getElem?_cons_zero,
          Option.getD_some]
      rw [hgp, ← geti_eq_getElem t.edges j hj, hidx j hj]
      omega

/-- Witness for C10 (amended), instantiated on the concrete killed arena
`killWitnessT.kill_edge 0` (killing the leading pair so a survivor follows a
killed edge). -/
theorem filter_deactivated_spec_witness :
    ((killWitnessT.kill_edge 0).filter_deactivated.edges.Sublist
        (killWitnessT.kill_edge 0).edges ∧
      (∀ e ∈ (killWitnessT.kill_edge 0).filter_deactivated.edges,
        e.deactivate = false) ∧
      (∀ e ∈ (killWitnessT.kill_edge 0).edges, e.deactivate = false →
        e ∈ (killWitnessT.kill_edge 0).filter_deactivated.edges) ∧
      (killWitnessT.kill_edge 0).filter_deactivated.num_edges =
        (killWitnessT.kill_edge 0).num_edges ∧
      (killWitnessT.kill_edge 0).filter_deactivated.inner =
        (killWitnessT.kill_edge 0).inner ∧
      (killWitnessT.kill_edge 0).filter_deactivated.outer =
        (killWitnessT.kill_edge 0).outer ∧
      (killWitnessT.kill_edge 0).filter_deactivated.points =
        (killWitnessT.kill_edge 0).points) ∧
    (killWitnessT.kill_edge 0).filter_deactivated.edges.length <
      (killWitnessT.kill_edge 0).filter_deactivated.num_edges ∧
    ∃ p, p < (killWitnessT.kill_edge 0).filter_deactivated.edges.length ∧
      (geti (killWitnessT.kill_edge 0).filter_deactivated.edges p).index ≠ p :=
  ⟨filter_deactivated_spec.1 (killWitnessT.kill_edge 0),
   filter_deactivated_spec.2.1 (killWitnessT.kill_edge 0) (by decide)
     ⟨(killWitnessT.kill_edge 0).edges.getD 0 default, by decide, by decide⟩,
   filter_deactivated_spec.2.2 (killWitnessT.kill_edge 0) (by decide) (by decide)
     0 2 (by decide) (by decide) (by decide) (by decide)⟩

end ParallelDelaunay
